import Mathlib

/-!
# gojit / amd64: the buffer writer and the descriptor table of the assembler

A shallow embedding of `src/amd64/assembler.go` and `src/amd64/instructions.go`.

* Bytes and the unsigned words `uint16`, `uint32`, `uint64` are natural numbers;
  every Go conversion `byte(e)` is an explicit `% 256`, every byte-typed shift
  is reduced `% 256`.
* `Off` is a Go `int`, modelled as an `Int` (it may be negative: the field is
  exported).  `len(Buf)` is the length of a slice that exists in memory, far below
  `2^63 - 8`, so for a cursor that is not past the end (`Off <= len(Buf)`) the sums
  `Off+1 .. Off+8` of the guards do not wrap around; they are taken in `Int`, and
  the statements below that depend on a guard are made for such cursors.
* `uintptr` values are natural numbers, their arithmetic is reduced modulo `2^64`
  (`wrap64`); what the external package `gojit` returns is a parameter.
* A pointer to a descriptor is the descriptor; a function that takes one returns
  the pointee as the call leaves it next to its result.
* A Go panic is an outcome of its own, carrying the message and the state of the
  assembler at the moment of the panic (the receiver is a pointer, so whatever
  was written before the panic stays written).
-/

namespace Amd64

/-- Go `error` values, identified by their message. -/
structure GoError where
  msg : String
  deriving DecidableEq, Repr

/-- Go: `var ErrBufferTooSmall = errors.New("buffer is too small")` -/
def ErrBufferTooSmall : GoError := ⟨"buffer is too small"⟩

/-- Go: `type ABI int` -/
abbrev ABI := Int

/-- Go: `CgoABI ABI = iota` -/
def CgoABI : ABI := 0

/-- The constant `GoABI` is the second constant of the `iota` block. -/
def GoABI : ABI := 1

/-- Go: `type Assembler struct { Buf []byte; Off int; ABI ABI; err error }` -/
structure Assembler where
  Buf : List Nat
  Off : Int
  ABI : ABI
  err : Option GoError
  deriving DecidableEq, Repr

/-- How a method call on an `*Assembler` ends: it returns, or it panics.  Both
carry the state the receiver is left in. -/
inductive Outcome where
  | returned (a : Assembler)
  | panicked (msg : String) (a : Assembler)
  deriving DecidableEq, Repr

/-- The message of the Go runtime panic raised by `s[i]` with `i` outside
`[0, len(s))`. -/
def indexOutOfRange : String := "index out of range"

/-- The indexed store `a.Buf[i] = v` followed by the rest of the method `k`:
the runtime bounds check panics when `i` is outside `[0, len(a.Buf))`. -/
def Assembler.store (a : Assembler) (i : Int) (v : Nat) (k : Assembler → Outcome) : Outcome :=
  if 0 ≤ i ∧ i < (a.Buf.length : Int) then
    k { a with Buf := a.Buf.set i.toNat v }
  else
    .panicked indexOutOfRange a

/-- Go: `func (a *Assembler) Error() error`: the returned error and the state left. -/
def Assembler.Error (a : Assembler) : Option GoError × Assembler :=
  let err := a.err
  (err, { a with err := none })

/-- Go: `func (a *Assembler) byte(b byte)` -/
def Assembler.byte (a : Assembler) (b : Nat) : Outcome :=
  if a.Off + 1 > (a.Buf.length : Int) then
    .returned { a with err := some ErrBufferTooSmall }
  else
    a.store a.Off b fun a =>
    .returned { a with Off := a.Off + 1 }

/-- Go: `func (a *Assembler) bytes(bs []byte)`: `for _, b := range bs { a.byte(b) }` -/
def Assembler.bytes (a : Assembler) : List Nat → Outcome
  | [] => .returned a
  | b :: bs =>
    match a.byte b with
    | .returned a1 => a1.bytes bs
    | .panicked m a1 => .panicked m a1

/-- Go: `func (a *Assembler) int16(i uint16)` -/
def Assembler.int16 (a : Assembler) (i : Nat) : Outcome :=
  if a.Off + 2 > (a.Buf.length : Int) then
    .returned { a with err := some ErrBufferTooSmall }
  else
    a.store a.Off ((i &&& 0xFF) % 256) fun a =>
    a.store (a.Off + 1) ((i >>> 8) % 256) fun a =>
    .returned { a with Off := a.Off + 2 }

/-- Go: `func (a *Assembler) int32(i uint32)` -/
def Assembler.int32 (a : Assembler) (i : Nat) : Outcome :=
  if a.Off + 4 > (a.Buf.length : Int) then
    .returned { a with err := some ErrBufferTooSmall }
  else
    a.store a.Off ((i &&& 0xFF) % 256) fun a =>
    a.store (a.Off + 1) ((i >>> 8) % 256) fun a =>
    a.store (a.Off + 2) ((i >>> 16) % 256) fun a =>
    a.store (a.Off + 3) ((i >>> 24) % 256) fun a =>
    .returned { a with Off := a.Off + 4 }

/-- Go: `func (a *Assembler) int64(i uint64)` -/
def Assembler.int64 (a : Assembler) (i : Nat) : Outcome :=
  if a.Off + 8 > (a.Buf.length : Int) then
    .returned { a with err := some ErrBufferTooSmall }
  else
    a.store a.Off ((i &&& 0xFF) % 256) fun a =>
    a.store (a.Off + 1) ((i >>> 8) % 256) fun a =>
    a.store (a.Off + 2) ((i >>> 16) % 256) fun a =>
    a.store (a.Off + 3) ((i >>> 24) % 256) fun a =>
    a.store (a.Off + 4) ((i >>> 32) % 256) fun a =>
    a.store (a.Off + 5) ((i >>> 40) % 256) fun a =>
    a.store (a.Off + 6) ((i >>> 48) % 256) fun a =>
    a.store (a.Off + 7) ((i >>> 56) % 256) fun a =>
    .returned { a with Off := a.Off + 8 }

/-- Modelled from the spec: the constant `PFX_REX`, declared outside the files at
hand; the REX lead byte is the "fixed `0100` pattern" in the high nibble. -/
def PFX_REX : Nat := 0x40

/-- Modelled from the spec: the constant `REXW`, declared outside the files at
hand; the width bit of the REX byte. -/
def REXW : Nat := 8

/-- Modelled from the spec: the constant `REXR`, declared outside the files at
hand; the reg-field extension bit of the REX byte. -/
def REXR : Nat := 4

/-- Modelled from the spec: the constant `REXX`, declared outside the files at
hand; the index-field extension bit of the REX byte. -/
def REXX : Nat := 2

/-- Modelled from the spec: the constant `REXB`, declared outside the files at
hand; the base/rm-field extension bit of the REX byte. -/
def REXB : Nat := 1

/-- The `bits` variable of `rex` after its four conditional `|=`. -/
def rexFlagBits (w r x b : Bool) : Nat :=
  let bits : Nat := 0
  let bits := if w then bits ||| REXW else bits
  let bits := if r then bits ||| REXR else bits
  let bits := if x then bits ||| REXX else bits
  let bits := if b then bits ||| REXB else bits
  bits

/-- Go: `func (a *Assembler) rex(w, r, x, b bool)` -/
def Assembler.rex (a : Assembler) (w r x b : Bool) : Outcome :=
  let bits := rexFlagBits w r x b
  if bits ≠ 0 then
    a.byte (PFX_REX ||| bits)
  else
    .returned a

/-- Go: `func (a *Assembler) rexBits(lsize, rsize byte, r, x, b bool)` -/
def Assembler.rexBits (a : Assembler) (lsize rsize : Nat) (r x b : Bool) : Outcome :=
  if lsize ≠ 0 ∧ rsize ≠ 0 ∧ lsize ≠ rsize then
    .panicked "mismatched instruction sizes" a
  else
    let lsize := lsize ||| rsize
    let lsize := if lsize = 0 then 64 else lsize
    a.rex (lsize = 64) r x b

/-- Go: `func (a *Assembler) modrm(mod, reg, rm byte)` -/
def Assembler.modrm (a : Assembler) (mod reg rm : Nat) : Outcome :=
  a.byte (((mod <<< 6) % 256) ||| ((reg <<< 3) % 256) ||| rm)

/-- Go: `func (a *Assembler) sib(s, i, b byte)` -/
def Assembler.sib (a : Assembler) (s i b : Nat) : Outcome :=
  a.byte (((s <<< 6) % 256) ||| ((i <<< 3) % 256) ||| b)

/-- Reading back: the value of the little-endian sequence of `n` bytes that
starts at position `off` of `buf`. -/
def readLE (buf : List Nat) (off : Nat) : Nat → Nat
  | 0 => 0
  | n + 1 => buf.getD off 0 + 256 * readLE buf (off + 1) n

/-- The cursor invariant `0 <= Off <= len(Buf)`. -/
def CursorOk (a : Assembler) : Prop := 0 ≤ a.Off ∧ a.Off ≤ (a.Buf.length : Int)

instance (a : Assembler) : Decidable (CursorOk a) :=
  inferInstanceAs (Decidable (0 ≤ a.Off ∧ a.Off ≤ (a.Buf.length : Int)))

/-- The frame of a write that took the state `a` to the state `a1`: `len(Buf)` and
`ABI` are the same, and so is every position of `Buf` below the old `Off` and
every position at or above the new `Off`. -/
def Frame (a a1 : Assembler) : Prop :=
  a1.Buf.length = a.Buf.length ∧
  (∀ j : Nat, (j : Int) < a.Off → a1.Buf[j]? = a.Buf[j]?) ∧
  (∀ j : Nat, a1.Off ≤ (j : Int) → a1.Buf[j]? = a.Buf[j]?) ∧
  a1.ABI = a.ABI

/-- The call ended by returning (no panic, so no store outside the buffer), and
the state it left satisfies `P`. -/
def ReturnsWith (r : Outcome) (P : Assembler → Prop) : Prop :=
  ∃ a1, r = .returned a1 ∧ P a1

/-- The state the receiver is left in, however the call ended. -/
def Outcome.state : Outcome → Assembler
  | .returned a => a
  | .panicked _ a => a

/-- What an append guarantees from a state with the cursor invariant: the
invariant again, a cursor that did not move back, and the frame. -/
def Step (a a1 : Assembler) : Prop :=
  CursorOk a1 ∧ a.Off ≤ a1.Off ∧ Frame a a1

/-! ### Relative displacements (`rel32`) -/

/-- Arithmetic of the Go type `uintptr` (64 bits on amd64): an integer reduced
modulo `2^64`. -/
def wrap64 (x : Int) : Nat := (x % 2 ^ 64).toNat

/-- The Go conversion `int32(u)` of an unsigned value: the low 32 bits, read as a
signed 32-bit integer. -/
def toInt32 (u : Nat) : Int :=
  if u % 2 ^ 32 < 2 ^ 31 then ((u % 2 ^ 32 : Nat) : Int) else ((u % 2 ^ 32 : Nat) : Int) - 2 ^ 32

/-- A 64-bit pattern read as a signed 64-bit integer. -/
def signed64 (d : Nat) : Int :=
  if d % 2 ^ 64 < 2 ^ 63 then ((d % 2 ^ 64 : Nat) : Int) else ((d % 2 ^ 64 : Nat) : Int) - 2 ^ 64

/-- The 32-bit two's-complement pattern of an integer. -/
def twosComplement32 (D : Int) : Nat := (D % 2 ^ 32).toNat

/-- Modelled from the spec: the function `Addr` of the external package `gojit`,
applied to `a.Buf[a.Off:]`; it is the "currentWriteAddress", the address `base` of
`Buf[0]` plus `Off`, as a `uintptr`. -/
def gojitAddr (base : Nat) (off : Int) : Nat := wrap64 ((base : Int) + off)

/-- The message of the Go runtime panic raised by the slice expression `s[i:]`
with `i` outside `[0, len(s)]`. -/
def sliceOutOfRange : String := "slice bounds out of range"

/-- Go: `func (a *Assembler) rel32(addr uintptr)`. The value `cur` that the
external `gojit.Addr(a.Buf[a.Off:])` returns, the current write address, is a
parameter. -/
def Assembler.rel32 (a : Assembler) (cur : Nat) (addr : Nat) : Outcome :=
  if 0 ≤ a.Off ∧ a.Off ≤ (a.Buf.length : Int) then
    let off := wrap64 ((wrap64 ((addr : Int) - (cur : Int)) : Int) - 4)
    if wrap64 (toInt32 off) ≠ off then
      .panicked "call rel: target out of range" a
    else
      a.int32 (off % 2 ^ 32)
  else
    .panicked sliceOutOfRange a

/-- The displacement `d = (target - P - 4)` modulo `2^64` of the claim about
`rel32`, with `P` the current write address. -/
def rel32Disp (P : Nat) (target : Nat) : Nat :=
  wrap64 ((target : Int) - (P : Int) - 4)

/-! ### Finalization -/

/-- Modelled from the spec: the function `Alloc` of the external package `gojit`
is the "executable-memory provider"; what it gave is a parameter: a region or an
error. -/
abbrev Allocated := Except GoError (List Nat)

/-- Go: `func New(size int) (*Assembler, error)`, with the outcome of `gojit.Alloc`
as a parameter; the fields not named in the literal have their zero value. -/
def New (alloc : Allocated) : Except GoError Assembler :=
  match alloc with
  | .error e => .error e
  | .ok buf => .ok { Buf := buf, Off := 0, ABI := 0, err := none }

/-- Go: `func NewGoABI(size int) (*Assembler, error)`, with the outcome of
`gojit.Alloc` as a parameter. -/
def NewGoABI (alloc : Allocated) : Except GoError Assembler :=
  match alloc with
  | .error e => .error e
  | .ok buf => .ok { Buf := buf, Off := 0, ABI := GoABI, err := none }

/-- Modelled from the spec: the function `BuildTo` of the external package `gojit`,
the "invocable bridge", "a pure bytes-to-callable bridge": it returns and leaves
the assembler as it is. -/
def gojitBuildTo (a : Assembler) : Outcome := .returned a

/-- Go: `func (a *Assembler) BuildTo(out interface{})`. The `switch` has one live
case, `GoABI`; the case `CgoABI` is commented out in the source, so that value
takes the `default` branch. -/
def Assembler.BuildTo (a : Assembler) : Outcome :=
  if a.ABI = GoABI then
    gojitBuildTo a
  else
    .panicked "bad ABI" a

/-! ### Instruction descriptors (`instructions.go`) -/

/-- Go: `type ImmRm struct { op []byte; sub byte; immbits byte }`; a `nil` slice
is `none`. -/
structure ImmRm where
  op : Option (List Nat)
  sub : Nat
  immbits : Nat
  deriving DecidableEq, Repr

/-- Go: `type Instruction struct { Mnemonic string; imm_r []byte; imm_rm ImmRm;
r_rm []byte; rm_r []byte; bits byte }`; a `nil` slice is `none`. -/
structure Instruction where
  Mnemonic : String
  imm_r : Option (List Nat)
  imm_rm : ImmRm
  r_rm : Option (List Nat)
  rm_r : Option (List Nat)
  bits : Nat
  deriving DecidableEq, Repr

/-- Go: `type j []byte`, the literal of a non-nil opcode slice. -/
def j (bs : List Nat) : Option (List Nat) := some bs

/-- Go: `func as32Bits(i64 *Instruction) *Instruction`. The first component is
the descriptor `i64` points to when the call returns, the second the descriptor
the returned pointer points to: `i32 := *i64` is a copy, and both assignments go
to the copy. -/
def as32Bits (i64 : Instruction) : Instruction × Instruction :=
  let i32 := i64
  let i32 := { i32 with Mnemonic := i32.Mnemonic ++ "l" }
  let i32 := { i32 with bits := 32 }
  (i64, i32)

def InstAdd : Instruction := ⟨"add", none, ⟨j [0x81], 0, 0⟩, j [0x01], j [0x03], 64⟩
def InstAddb : Instruction := ⟨"addb", none, ⟨j [0x80], 0, 0⟩, j [0x00], j [0x02], 8⟩
def InstAdc : Instruction := ⟨"adc", none, ⟨j [0x81], 2, 0⟩, j [0x11], j [0x13], 64⟩
def InstAdcb : Instruction := ⟨"adcb", none, ⟨j [0x80], 2, 0⟩, j [0x10], j [0x12], 8⟩
def InstAnd : Instruction := ⟨"and", none, ⟨j [0x81], 4, 0⟩, j [0x21], j [0x23], 64⟩
def InstAndb : Instruction := ⟨"andb", none, ⟨j [0x80], 4, 0⟩, j [0x20], j [0x22], 8⟩
def InstCmp : Instruction := ⟨"cmp", none, ⟨j [0x81], 7, 0⟩, j [0x39], j [0x3B], 64⟩
def InstCmpb : Instruction := ⟨"cmpb", none, ⟨j [0x80], 7, 0⟩, j [0x38], j [0x3A], 8⟩
def InstOr : Instruction := ⟨"or", none, ⟨j [0x81], 1, 0⟩, j [0x09], j [0x0B], 64⟩
def InstOrb : Instruction := ⟨"orb", none, ⟨j [0x80], 1, 0⟩, j [0x08], j [0x0A], 8⟩
def InstSbb : Instruction := ⟨"sbb", none, ⟨j [0x81], 3, 0⟩, j [0x19], j [0x1B], 64⟩
def InstSbbb : Instruction := ⟨"sbbb", none, ⟨j [0x80], 3, 0⟩, j [0x18], j [0x1A], 8⟩
def InstSub : Instruction := ⟨"sub", none, ⟨j [0x81], 5, 0⟩, j [0x29], j [0x2B], 64⟩
def InstSubb : Instruction := ⟨"subb", none, ⟨j [0x80], 5, 0⟩, j [0x28], j [0x2A], 8⟩
def InstTest : Instruction := ⟨"test", none, ⟨j [0xF7], 0, 0⟩, j [0x85], none, 64⟩
def InstTestb : Instruction := ⟨"testb", none, ⟨j [0xF6], 0, 0⟩, j [0x84], none, 8⟩
def InstXor : Instruction := ⟨"xor", none, ⟨j [0x81], 6, 0⟩, j [0x31], j [0x33], 64⟩
def InstXorb : Instruction := ⟨"xorb", none, ⟨j [0x80], 6, 0⟩, j [0x30], j [0x32], 8⟩
def InstShl : Instruction := ⟨"shl", none, ⟨j [0xC1], 4, 8⟩, none, none, 64⟩
def InstShlb : Instruction := ⟨"shlb", none, ⟨j [0xC0], 4, 8⟩, none, none, 8⟩
def InstShr : Instruction := ⟨"shr", none, ⟨j [0xC1], 5, 8⟩, none, none, 64⟩
def InstShrb : Instruction := ⟨"shrb", none, ⟨j [0xC0], 5, 8⟩, none, none, 8⟩
def InstSar : Instruction := ⟨"sar", none, ⟨j [0xC1], 7, 8⟩, none, none, 64⟩
def InstSarb : Instruction := ⟨"sarb", none, ⟨j [0xC0], 7, 8⟩, none, none, 8⟩
def InstBt : Instruction := ⟨"bt", none, ⟨j [0x0F, 0xBA], 4, 0⟩, j [0x0F, 0xA3], none, 8⟩
def InstBtc : Instruction := ⟨"btc", none, ⟨j [0x0F, 0xBA], 7, 0⟩, j [0x0F, 0xBB], none, 8⟩
def InstBtr : Instruction := ⟨"btr", none, ⟨j [0x0F, 0xBA], 6, 0⟩, j [0x0F, 0xB3], none, 8⟩
def InstBts : Instruction := ⟨"bts", none, ⟨j [0x0F, 0xBA], 5, 0⟩, j [0x0F, 0xAB], none, 8⟩
def InstLea : Instruction := ⟨"lea", none, ⟨none, 0, 0⟩, none, j [0x8D], 64⟩
def InstMov : Instruction := ⟨"mov", j [0xB8], ⟨j [0xc7], 0, 0⟩, j [0x89], j [0x8b], 64⟩
def InstMovl : Instruction := (as32Bits InstMov).2
def InstMovb : Instruction := ⟨"movb", j [0xB0], ⟨j [0xc6], 0, 0⟩, j [0x88], j [0x8a], 64⟩

/-- The descriptors of the `var ( ... )` block of `instructions.go`, in the order
of the source. -/
def instructionTable : List Instruction :=
  [InstAdd, InstAddb, InstAdc, InstAdcb, InstAnd, InstAndb, InstCmp, InstCmpb, InstOr, InstOrb,
   InstSbb, InstSbbb, InstSub, InstSubb, InstTest, InstTestb, InstXor, InstXorb, InstShl,
   InstShlb, InstShr, InstShrb, InstSar, InstSarb, InstBt, InstBtc, InstBtr, InstBts, InstLea,
   InstMov, InstMovl, InstMovb]

/-- The pattern of a group-1 pair of descriptors with sub-opcode `s`: the
full-width one has `imm_rm.op = [0x81]`, `r_rm = [8s+1]`, `rm_r = [8s+3]`, the byte
one has each opcode one less; both have sub-opcode `s`, no `imm_r` and
`immbits = 0`. -/
def Group1 (full byte : Instruction) (s : Nat) : Prop :=
  full.imm_rm.sub = s ∧ full.imm_rm.op = some [0x81] ∧
  full.r_rm = some [8 * s + 1] ∧ full.rm_r = some [8 * s + 3] ∧
  full.imm_r = none ∧ full.imm_rm.immbits = 0 ∧
  byte.imm_rm.sub = s ∧ byte.imm_rm.op = some [0x81 - 1] ∧
  byte.r_rm = some [8 * s + 1 - 1] ∧ byte.rm_r = some [8 * s + 3 - 1] ∧
  byte.imm_r = none ∧ byte.imm_rm.immbits = 0

/-! ## Stores inside the buffer -/

theorem store_inside (a : Assembler) (i : Int) (v : Nat) (k : Assembler → Outcome)
    (h0 : 0 ≤ i) (h1 : i < (a.Buf.length : Int)) :
    a.store i v k = k { a with Buf := a.Buf.set i.toNat v } := by
  unfold Assembler.store
  rw [if_pos ⟨h0, h1⟩]

theorem store_at (B : List Nat) (o : Int) (abi : ABI) (e : Option GoError) (i : Int) (v : Nat)
    (k : Assembler → Outcome) (m : Nat) (hi : i = (m : Int)) (h : m < B.length) :
    Assembler.store ⟨B, o, abi, e⟩ i v k = k ⟨B.set m v, o, abi, e⟩ := by
  subst hi
  rw [store_inside _ _ _ _ (by omega) (by simpa using h)]
  simp

theorem int16_fits (B : List Nat) (n : Nat) (abi : ABI) (e : Option GoError) (i : Nat)
    (h : n + 2 ≤ B.length) :
    Assembler.int16 ⟨B, n, abi, e⟩ i =
      .returned ⟨(B.set n ((i &&& 0xFF) % 256)).set (n + 1) ((i >>> 8) % 256), n + 2, abi, e⟩ := by
  unfold Assembler.int16
  rw [if_neg (by simp only []; omega)]
  simp only []
  rw [store_at _ _ _ _ _ _ _ n rfl (by omega),
    store_at _ _ _ _ _ _ _ (n + 1) (by push_cast; rfl) (by simp; omega)]

theorem int32_fits (B : List Nat) (n : Nat) (abi : ABI) (e : Option GoError) (i : Nat)
    (h : n + 4 ≤ B.length) :
    Assembler.int32 ⟨B, n, abi, e⟩ i =
      .returned ⟨(((B.set n ((i &&& 0xFF) % 256)).set (n + 1) ((i >>> 8) % 256)).set (n + 2)
        ((i >>> 16) % 256)).set (n + 3) ((i >>> 24) % 256), n + 4, abi, e⟩ := by
  unfold Assembler.int32
  rw [if_neg (by simp only []; omega)]
  simp only []
  rw [store_at _ _ _ _ _ _ _ n rfl (by omega),
    store_at _ _ _ _ _ _ _ (n + 1) (by push_cast; rfl) (by simp; omega),
    store_at _ _ _ _ _ _ _ (n + 2) (by push_cast; rfl) (by simp; omega),
    store_at _ _ _ _ _ _ _ (n + 3) (by push_cast; rfl) (by simp; omega)]

theorem int64_fits (B : List Nat) (n : Nat) (abi : ABI) (e : Option GoError) (i : Nat)
    (h : n + 8 ≤ B.length) :
    Assembler.int64 ⟨B, n, abi, e⟩ i =
      .returned ⟨(((((((B.set n ((i &&& 0xFF) % 256)).set (n + 1) ((i >>> 8) % 256)).set (n + 2)
        ((i >>> 16) % 256)).set (n + 3) ((i >>> 24) % 256)).set (n + 4) ((i >>> 32) % 256)).set
        (n + 5) ((i >>> 40) % 256)).set (n + 6) ((i >>> 48) % 256)).set (n + 7)
        ((i >>> 56) % 256), n + 8, abi, e⟩ := by
  unfold Assembler.int64
  rw [if_neg (by simp only []; omega)]
  simp only []
  rw [store_at _ _ _ _ _ _ _ n rfl (by omega),
    store_at _ _ _ _ _ _ _ (n + 1) (by push_cast; rfl) (by simp; omega),
    store_at _ _ _ _ _ _ _ (n + 2) (by push_cast; rfl) (by simp; omega),
    store_at _ _ _ _ _ _ _ (n + 3) (by push_cast; rfl) (by simp; omega),
    store_at _ _ _ _ _ _ _ (n + 4) (by push_cast; rfl) (by simp; omega),
    store_at _ _ _ _ _ _ _ (n + 5) (by push_cast; rfl) (by simp; omega),
    store_at _ _ _ _ _ _ _ (n + 6) (by push_cast; rfl) (by simp; omega),
    store_at _ _ _ _ _ _ _ (n + 7) (by push_cast; rfl) (by simp; omega)]

theorem low_byte (i : Nat) : (i &&& 0xFF) % 256 = (i >>> (8 * 0)) % 256 := by
  have := Nat.and_pow_two_sub_one_eq_mod i 8
  simp at this
  simp
  omega

theorem readLE_shift (buf : List Nat) (n : Nat) : ∀ (off i : Nat),
    (∀ k : Nat, k < n → buf[off + k]? = some ((i >>> (8 * k)) % 256)) →
    readLE buf off n = i % 256 ^ n := by
  induction n with
  | zero => intro off i _; simp [readLE, Nat.mod_one]
  | succ n ih =>
    intro off i h
    have h0 := h 0 (by omega)
    have hs : ∀ k : Nat, k < n → buf[off + 1 + k]? = some (((i >>> 8) >>> (8 * k)) % 256) := by
      intro k hk
      have := h (k + 1) (by omega)
      rw [← Nat.shiftRight_add, show 8 + 8 * k = 8 * (k + 1) by ring,
        show off + 1 + k = off + (k + 1) by ring]
      exact this
    simp only [Nat.add_zero, Nat.mul_zero, Nat.shiftRight_zero] at h0
    rw [readLE, ih (off + 1) (i >>> 8) hs, List.getD_eq_getElem?_getD, h0, Option.getD_some,
      pow_succ', Nat.mod_mul, Nat.shiftRight_eq_div_pow]

theorem int16_word (a : Assembler) (i : Nat) (h0 : 0 ≤ a.Off)
    (h1 : a.Off + 2 ≤ (a.Buf.length : Int)) :
    ∃ a1, a.int16 i = .returned a1 ∧
      (∀ k : Nat, k < 2 → a1.Buf[a.Off.toNat + k]? = some ((i >>> (8 * k)) % 256)) ∧
      a1.Off = a.Off + 2 ∧ a1.err = a.err ∧
      (i < 2 ^ 16 → readLE a1.Buf a.Off.toNat 2 = i) := by
  obtain ⟨B, o, abi, e⟩ := a
  obtain ⟨n, rfl⟩ := Int.eq_ofNat_of_zero_le h0
  simp only [Int.toNat_ofNat] at *
  have hl : n + 2 ≤ B.length := by omega
  have hb : ∀ k : Nat, k < 2 → ((B.set n ((i &&& 0xFF) % 256)).set (n + 1) ((i >>> 8) % 256))[n + k]?
      = some ((i >>> (8 * k)) % 256) := by
    intro k hk
    rw [low_byte]
    interval_cases k <;> simp [List.getElem?_set] <;> omega
  refine ⟨_, int16_fits B n abi e i hl, hb, rfl, rfl, ?_⟩
  intro hi
  rw [readLE_shift _ 2 n i hb]
  exact Nat.mod_eq_of_lt (by norm_num at hi ⊢; exact hi)

theorem int32_word (a : Assembler) (i : Nat) (h0 : 0 ≤ a.Off)
    (h1 : a.Off + 4 ≤ (a.Buf.length : Int)) :
    ∃ a1, a.int32 i = .returned a1 ∧
      (∀ k : Nat, k < 4 → a1.Buf[a.Off.toNat + k]? = some ((i >>> (8 * k)) % 256)) ∧
      a1.Off = a.Off + 4 ∧ a1.err = a.err ∧
      (i < 2 ^ 32 → readLE a1.Buf a.Off.toNat 4 = i) := by
  obtain ⟨B, o, abi, e⟩ := a
  obtain ⟨n, rfl⟩ := Int.eq_ofNat_of_zero_le h0
  simp only [Int.toNat_ofNat] at *
  have hl : n + 4 ≤ B.length := by omega
  have hf := int32_fits B n abi e i hl
  rw [low_byte] at hf
  refine ⟨_, hf, ?_, rfl, rfl, ?_⟩
  · intro k hk
    interval_cases k <;> simp [List.getElem?_set] <;> omega
  · intro hi
    rw [readLE_shift _ 4 n i ?_]
    · exact Nat.mod_eq_of_lt (by norm_num at hi ⊢; exact hi)
    · intro k hk
      interval_cases k <;> simp [List.getElem?_set] <;> omega

theorem int64_word (a : Assembler) (i : Nat) (h0 : 0 ≤ a.Off)
    (h1 : a.Off + 8 ≤ (a.Buf.length : Int)) :
    ∃ a1, a.int64 i = .returned a1 ∧
      (∀ k : Nat, k < 8 → a1.Buf[a.Off.toNat + k]? = some ((i >>> (8 * k)) % 256)) ∧
      a1.Off = a.Off + 8 ∧ a1.err = a.err ∧
      (i < 2 ^ 64 → readLE a1.Buf a.Off.toNat 8 = i) := by
  obtain ⟨B, o, abi, e⟩ := a
  obtain ⟨n, rfl⟩ := Int.eq_ofNat_of_zero_le h0
  simp only [Int.toNat_ofNat] at *
  have hl : n + 8 ≤ B.length := by omega
  have hf := int64_fits B n abi e i hl
  rw [low_byte] at hf
  refine ⟨_, hf, ?_, rfl, rfl, ?_⟩
  · intro k hk
    interval_cases k <;> simp [List.getElem?_set] <;> omega
  · intro hi
    rw [readLE_shift _ 8 n i ?_]
    · exact Nat.mod_eq_of_lt (by norm_num at hi ⊢; exact hi)
    · intro k hk
      interval_cases k <;> simp [List.getElem?_set] <;> omega

/-! ## One step of the writer: cursor and frame -/

theorem Step.refl_err (a : Assembler) (h : CursorOk a) (e : Option GoError) :
    Step a { a with err := e } :=
  ⟨h, le_refl _, rfl, fun _ _ => rfl, fun _ _ => rfl, rfl⟩

theorem Step.trans {a a1 a2 : Assembler} (h1 : Step a a1) (h2 : Step a1 a2) : Step a a2 := by
  obtain ⟨c1, o1, l1, lo1, hi1, abi1⟩ := h1
  obtain ⟨c2, o2, l2, lo2, hi2, abi2⟩ := h2
  refine ⟨c2, le_trans o1 o2, l2.trans l1, ?_, ?_, abi2.trans abi1⟩
  · intro j hj
    rw [lo2 j (by omega), lo1 j hj]
  · intro j hj
    rw [hi2 j hj, hi1 j (by omega)]

theorem byte_step (a : Assembler) (b : Nat) (h : CursorOk a) :
    ReturnsWith (a.byte b) (Step a) := by
  obtain ⟨B, o, abi, e⟩ := a
  obtain ⟨h0, h1⟩ := h
  obtain ⟨n, rfl⟩ := Int.eq_ofNat_of_zero_le h0
  simp only at h1
  by_cases hf : (n : Int) + 1 > (B.length : Int)
  · refine ⟨_, by unfold Assembler.byte; rw [if_pos hf], ?_⟩
    exact Step.refl_err ⟨B, n, abi, e⟩ ⟨h0, h1⟩ _
  · refine ⟨⟨B.set n b, n + 1, abi, e⟩, ?_, ⟨?_, ?_⟩, ?_, ?_, ?_, ?_, rfl⟩
    · unfold Assembler.byte
      rw [if_neg hf]
      simp only []
      rw [store_at _ _ _ _ _ _ _ n rfl (by omega)]
    · simp only []; omega
    · simp only [List.length_set]; omega
    · simp only []; omega
    · simp
    · intro j hj
      simp only [] at hj ⊢
      rw [List.getElem?_set_ne (by omega)]
    · intro j hj
      simp only [] at hj ⊢
      rw [List.getElem?_set_ne (by omega)]

theorem bytes_step (bs : List Nat) : ∀ (a : Assembler), CursorOk a →
    ReturnsWith (a.bytes bs) (Step a) := by
  induction bs with
  | nil =>
    intro a h
    exact ⟨a, rfl, Step.refl_err a h a.err⟩
  | cons b bs ih =>
    intro a h
    obtain ⟨a1, e1, s1⟩ := byte_step a b h
    obtain ⟨a2, e2, s2⟩ := ih a1 s1.1
    refine ⟨a2, ?_, s1.trans s2⟩
    rw [Assembler.bytes, e1]
    exact e2

theorem int16_step (a : Assembler) (i : Nat) (h : CursorOk a) :
    ReturnsWith (a.int16 i) (Step a) := by
  obtain ⟨B, o, abi, e⟩ := a
  obtain ⟨h0, h1⟩ := h
  obtain ⟨n, rfl⟩ := Int.eq_ofNat_of_zero_le h0
  simp only at h1
  by_cases hf : (n : Int) + 2 > (B.length : Int)
  · refine ⟨_, by unfold Assembler.int16; rw [if_pos hf], ?_⟩
    exact Step.refl_err ⟨B, n, abi, e⟩ ⟨h0, h1⟩ _
  · refine ⟨_, int16_fits B n abi e i (by omega), ⟨?_, ?_⟩, ?_, ?_, ?_, ?_, rfl⟩
    · simp only []; omega
    · simp only [List.length_set]; omega
    · simp only []; omega
    · simp
    · intro j hj
      simp only [] at hj ⊢
      rw [List.getElem?_set_ne (by omega), List.getElem?_set_ne (by omega)]
    · intro j hj
      simp only [] at hj ⊢
      rw [List.getElem?_set_ne (by omega), List.getElem?_set_ne (by omega)]

theorem int32_step (a : Assembler) (i : Nat) (h : CursorOk a) :
    ReturnsWith (a.int32 i) (Step a) := by
  obtain ⟨B, o, abi, e⟩ := a
  obtain ⟨h0, h1⟩ := h
  obtain ⟨n, rfl⟩ := Int.eq_ofNat_of_zero_le h0
  simp only at h1
  by_cases hf : (n : Int) + 4 > (B.length : Int)
  · refine ⟨_, by unfold Assembler.int32; rw [if_pos hf], ?_⟩
    exact Step.refl_err ⟨B, n, abi, e⟩ ⟨h0, h1⟩ _
  · refine ⟨_, int32_fits B n abi e i (by omega), ⟨?_, ?_⟩, ?_, ?_, ?_, ?_, rfl⟩
    · simp only []; omega
    · simp only [List.length_set]; omega
    · simp only []; omega
    · simp
    · intro j hj
      simp only [] at hj ⊢
      rw [List.getElem?_set_ne (by omega), List.getElem?_set_ne (by omega),
        List.getElem?_set_ne (by omega), List.getElem?_set_ne (by omega)]
    · intro j hj
      simp only [] at hj ⊢
      rw [List.getElem?_set_ne (by omega), List.getElem?_set_ne (by omega),
        List.getElem?_set_ne (by omega), List.getElem?_set_ne (by omega)]

theorem int64_step (a : Assembler) (i : Nat) (h : CursorOk a) :
    ReturnsWith (a.int64 i) (Step a) := by
  obtain ⟨B, o, abi, e⟩ := a
  obtain ⟨h0, h1⟩ := h
  obtain ⟨n, rfl⟩ := Int.eq_ofNat_of_zero_le h0
  simp only at h1
  by_cases hf : (n : Int) + 8 > (B.length : Int)
  · refine ⟨_, by unfold Assembler.int64; rw [if_pos hf], ?_⟩
    exact Step.refl_err ⟨B, n, abi, e⟩ ⟨h0, h1⟩ _
  · refine ⟨_, int64_fits B n abi e i (by omega), ⟨?_, ?_⟩, ?_, ?_, ?_, ?_, rfl⟩
    · simp only []; omega
    · simp only [List.length_set]; omega
    · simp only []; omega
    · simp
    · intro j hj
      simp only [] at hj ⊢
      rw [List.getElem?_set_ne (by omega), List.getElem?_set_ne (by omega),
        List.getElem?_set_ne (by omega), List.getElem?_set_ne (by omega),
        List.getElem?_set_ne (by omega), List.getElem?_set_ne (by omega),
        List.getElem?_set_ne (by omega), List.getElem?_set_ne (by omega)]
    · intro j hj
      simp only [] at hj ⊢
      rw [List.getElem?_set_ne (by omega), List.getElem?_set_ne (by omega),
        List.getElem?_set_ne (by omega), List.getElem?_set_ne (by omega),
        List.getElem?_set_ne (by omega), List.getElem?_set_ne (by omega),
        List.getElem?_set_ne (by omega), List.getElem?_set_ne (by omega)]

theorem rex_step (a : Assembler) (w r x b : Bool) (h : CursorOk a) :
    ReturnsWith (a.rex w r x b) (Step a) := by
  unfold Assembler.rex
  simp only []
  split
  · exact byte_step a _ h
  · exact ⟨a, rfl, Step.refl_err a h a.err⟩

theorem modrm_step (a : Assembler) (mod reg rm : Nat) (h : CursorOk a) :
    ReturnsWith (a.modrm mod reg rm) (Step a) :=
  byte_step a _ h

theorem sib_step (a : Assembler) (s i b : Nat) (h : CursorOk a) :
    ReturnsWith (a.sib s i b) (Step a) :=
  byte_step a _ h

theorem ReturnsWith.mono {r : Outcome} {P Q : Assembler → Prop} (h : ReturnsWith r P)
    (hPQ : ∀ s, P s → Q s) : ReturnsWith r Q :=
  h.elim fun s hs => ⟨s, hs.1, hPQ s hs.2⟩

/-! ## The three ways an append primitive can end -/

theorem store_outside (a : Assembler) (i : Int) (v : Nat) (k : Assembler → Outcome)
    (h : i < 0) : a.store i v k = .panicked indexOutOfRange a := by
  unfold Assembler.store
  rw [if_neg (by omega)]

theorem byte_full (a : Assembler) (b : Nat) (h : a.Off + 1 > (a.Buf.length : Int)) :
    a.byte b = .returned ⟨a.Buf, a.Off, a.ABI, some ErrBufferTooSmall⟩ := by
  unfold Assembler.byte
  rw [if_pos h]

theorem int16_full (a : Assembler) (i : Nat) (h : a.Off + 2 > (a.Buf.length : Int)) :
    a.int16 i = .returned ⟨a.Buf, a.Off, a.ABI, some ErrBufferTooSmall⟩ := by
  unfold Assembler.int16
  rw [if_pos h]

theorem int32_full (a : Assembler) (i : Nat) (h : a.Off + 4 > (a.Buf.length : Int)) :
    a.int32 i = .returned ⟨a.Buf, a.Off, a.ABI, some ErrBufferTooSmall⟩ := by
  unfold Assembler.int32
  rw [if_pos h]

theorem int64_full (a : Assembler) (i : Nat) (h : a.Off + 8 > (a.Buf.length : Int)) :
    a.int64 i = .returned ⟨a.Buf, a.Off, a.ABI, some ErrBufferTooSmall⟩ := by
  unfold Assembler.int64
  rw [if_pos h]

theorem byte_cases (a : Assembler) (b : Nat) :
    (a.Off + 1 > (a.Buf.length : Int) ∧
      a.byte b = .returned ⟨a.Buf, a.Off, a.ABI, some ErrBufferTooSmall⟩) ∨
    (a.Off < 0 ∧ a.byte b = .panicked indexOutOfRange a) ∨
    (0 ≤ a.Off ∧ ∃ B, a.byte b = .returned ⟨B, a.Off + 1, a.ABI, a.err⟩) := by
  by_cases hf : a.Off + 1 > (a.Buf.length : Int)
  · exact Or.inl ⟨hf, byte_full a b hf⟩
  · by_cases h0 : a.Off < 0
    · refine Or.inr (Or.inl ⟨h0, ?_⟩)
      unfold Assembler.byte
      rw [if_neg hf, store_outside _ _ _ _ h0]
    · refine Or.inr (Or.inr ⟨by omega, ?_⟩)
      refine ⟨a.Buf.set a.Off.toNat b, ?_⟩
      unfold Assembler.byte
      rw [if_neg hf, store_inside _ _ _ _ (by omega) (by omega)]

theorem int16_cases (a : Assembler) (i : Nat) :
    (a.Off + 2 > (a.Buf.length : Int) ∧
      a.int16 i = .returned ⟨a.Buf, a.Off, a.ABI, some ErrBufferTooSmall⟩) ∨
    (a.Off < 0 ∧ a.int16 i = .panicked indexOutOfRange a) ∨
    (0 ≤ a.Off ∧ ∃ B, a.int16 i = .returned ⟨B, a.Off + 2, a.ABI, a.err⟩) := by
  by_cases hf : a.Off + 2 > (a.Buf.length : Int)
  · exact Or.inl ⟨hf, int16_full a i hf⟩
  · by_cases h0 : a.Off < 0
    · refine Or.inr (Or.inl ⟨h0, ?_⟩)
      unfold Assembler.int16
      rw [if_neg hf, store_outside _ _ _ _ h0]
    · refine Or.inr (Or.inr ⟨by omega, ?_⟩)
      obtain ⟨B, o, abi, e⟩ := a
      obtain ⟨n, rfl⟩ := Int.eq_ofNat_of_zero_le (show 0 ≤ o by simp only [] at h0; omega)
      exact ⟨_, int16_fits B n abi e i (by simp only [] at hf; omega)⟩

theorem int32_cases (a : Assembler) (i : Nat) :
    (a.Off + 4 > (a.Buf.length : Int) ∧
      a.int32 i = .returned ⟨a.Buf, a.Off, a.ABI, some ErrBufferTooSmall⟩) ∨
    (a.Off < 0 ∧ a.int32 i = .panicked indexOutOfRange a) ∨
    (0 ≤ a.Off ∧ ∃ B, a.int32 i = .returned ⟨B, a.Off + 4, a.ABI, a.err⟩) := by
  by_cases hf : a.Off + 4 > (a.Buf.length : Int)
  · exact Or.inl ⟨hf, int32_full a i hf⟩
  · by_cases h0 : a.Off < 0
    · refine Or.inr (Or.inl ⟨h0, ?_⟩)
      unfold Assembler.int32
      rw [if_neg hf, store_outside _ _ _ _ h0]
    · refine Or.inr (Or.inr ⟨by omega, ?_⟩)
      obtain ⟨B, o, abi, e⟩ := a
      obtain ⟨n, rfl⟩ := Int.eq_ofNat_of_zero_le (show 0 ≤ o by simp only [] at h0; omega)
      exact ⟨_, int32_fits B n abi e i (by simp only [] at hf; omega)⟩

theorem int64_cases (a : Assembler) (i : Nat) :
    (a.Off + 8 > (a.Buf.length : Int) ∧
      a.int64 i = .returned ⟨a.Buf, a.Off, a.ABI, some ErrBufferTooSmall⟩) ∨
    (a.Off < 0 ∧ a.int64 i = .panicked indexOutOfRange a) ∨
    (0 ≤ a.Off ∧ ∃ B, a.int64 i = .returned ⟨B, a.Off + 8, a.ABI, a.err⟩) := by
  by_cases hf : a.Off + 8 > (a.Buf.length : Int)
  · exact Or.inl ⟨hf, int64_full a i hf⟩
  · by_cases h0 : a.Off < 0
    · refine Or.inr (Or.inl ⟨h0, ?_⟩)
      unfold Assembler.int64
      rw [if_neg hf, store_outside _ _ _ _ h0]
    · refine Or.inr (Or.inr ⟨by omega, ?_⟩)
      obtain ⟨B, o, abi, e⟩ := a
      obtain ⟨n, rfl⟩ := Int.eq_ofNat_of_zero_le (show 0 ≤ o by simp only [] at h0; omega)
      exact ⟨_, int64_fits B n abi e i (by simp only [] at hf; omega)⟩

/-! ## The error slot is never cleared by an append -/

theorem byte_err (a : Assembler) (b : Nat) (h : a.err ≠ none) :
    (a.byte b).state.err ≠ none := by
  rcases byte_cases a b with ⟨_, e⟩ | ⟨_, e⟩ | ⟨_, B, e⟩ <;> rw [e] <;> simp [Outcome.state, h]

theorem bytes_err (bs : List Nat) : ∀ (a : Assembler), a.err ≠ none →
    (a.bytes bs).state.err ≠ none := by
  induction bs with
  | nil => intro a h; exact h
  | cons b bs ih =>
    intro a h
    have hb := byte_err a b h
    rw [Assembler.bytes]
    cases hr : a.byte b with
    | returned a1 =>
      rw [hr] at hb
      exact ih a1 hb
    | panicked m a1 =>
      rw [hr] at hb
      exact hb

theorem int16_err (a : Assembler) (i : Nat) (h : a.err ≠ none) :
    (a.int16 i).state.err ≠ none := by
  rcases int16_cases a i with ⟨_, e⟩ | ⟨_, e⟩ | ⟨_, B, e⟩ <;> rw [e] <;> simp [Outcome.state, h]

theorem int32_err (a : Assembler) (i : Nat) (h : a.err ≠ none) :
    (a.int32 i).state.err ≠ none := by
  rcases int32_cases a i with ⟨_, e⟩ | ⟨_, e⟩ | ⟨_, B, e⟩ <;> rw [e] <;> simp [Outcome.state, h]

theorem int64_err (a : Assembler) (i : Nat) (h : a.err ≠ none) :
    (a.int64 i).state.err ≠ none := by
  rcases int64_cases a i with ⟨_, e⟩ | ⟨_, e⟩ | ⟨_, B, e⟩ <;> rw [e] <;> simp [Outcome.state, h]

theorem rex_err (a : Assembler) (w r x b : Bool) (h : a.err ≠ none) :
    (a.rex w r x b).state.err ≠ none := by
  unfold Assembler.rex
  simp only []
  split
  · exact byte_err a _ h
  · exact h

theorem returns_err {r : Outcome} {P : Assembler → Prop} (h : ReturnsWith r P)
    (he : r.state.err ≠ none) : ReturnsWith r (fun a1 => a1.err ≠ none) := by
  obtain ⟨a1, e1, _⟩ := h
  subst e1
  exact ⟨a1, rfl, he⟩

/-! ## An append that does not fit -/

theorem bytes_full (bs : List Nat) : ∀ (a : Assembler), a.Off + 1 > (a.Buf.length : Int) →
    ReturnsWith (a.bytes bs) (fun a1 => a1.Buf = a.Buf ∧ a1.Off = a.Off) := by
  induction bs with
  | nil => intro a _; exact ⟨a, rfl, rfl, rfl⟩
  | cons b bs ih =>
    intro a h
    rw [Assembler.bytes, byte_full a b h]
    exact ih ⟨a.Buf, a.Off, a.ABI, some ErrBufferTooSmall⟩ h

theorem rex_full (a : Assembler) (w r x b : Bool) (h : a.Off + 1 > (a.Buf.length : Int)) :
    ReturnsWith (a.rex w r x b) (fun a1 => a1.Buf = a.Buf ∧ a1.Off = a.Off) := by
  unfold Assembler.rex
  simp only []
  split
  · rw [byte_full a _ h]
    exact ⟨_, rfl, rfl, rfl⟩
  · exact ⟨a, rfl, rfl, rfl⟩

/-! ## The only panic of an append primitive is the bounds check at a negative cursor -/

theorem byte_panic (a : Assembler) (b : Nat) (m : String) (s : Assembler)
    (h : a.byte b = .panicked m s) : a.Off < 0 ∧ m = indexOutOfRange ∧ s = a := by
  rcases byte_cases a b with ⟨_, e⟩ | ⟨h0, e⟩ | ⟨_, B, e⟩ <;> rw [e] at h <;> simp at h
  exact ⟨h0, h.1.symm, h.2.symm⟩

theorem int16_panic (a : Assembler) (i : Nat) (m : String) (s : Assembler)
    (h : a.int16 i = .panicked m s) : a.Off < 0 ∧ m = indexOutOfRange ∧ s = a := by
  rcases int16_cases a i with ⟨_, e⟩ | ⟨h0, e⟩ | ⟨_, B, e⟩ <;> rw [e] at h <;> simp at h
  exact ⟨h0, h.1.symm, h.2.symm⟩

theorem int32_panic (a : Assembler) (i : Nat) (m : String) (s : Assembler)
    (h : a.int32 i = .panicked m s) : a.Off < 0 ∧ m = indexOutOfRange ∧ s = a := by
  rcases int32_cases a i with ⟨_, e⟩ | ⟨h0, e⟩ | ⟨_, B, e⟩ <;> rw [e] at h <;> simp at h
  exact ⟨h0, h.1.symm, h.2.symm⟩

theorem int64_panic (a : Assembler) (i : Nat) (m : String) (s : Assembler)
    (h : a.int64 i = .panicked m s) : a.Off < 0 ∧ m = indexOutOfRange ∧ s = a := by
  rcases int64_cases a i with ⟨_, e⟩ | ⟨h0, e⟩ | ⟨_, B, e⟩ <;> rw [e] at h <;> simp at h
  exact ⟨h0, h.1.symm, h.2.symm⟩

theorem rex_panic (a : Assembler) (w r x b : Bool) (m : String) (s : Assembler)
    (h : a.rex w r x b = .panicked m s) : a.Off < 0 ∧ m = indexOutOfRange ∧ s = a := by
  unfold Assembler.rex at h
  simp only [] at h
  split at h
  · exact byte_panic a _ m s h
  · exact Outcome.noConfusion h

/-! ## The claims -/

/-- C1. `byte(b)` on a state with `0 <= Off <= len(Buf)`: when `Off+1 <= len(Buf)`
it returns with `Buf[Off] = b`, `Off` one larger, every other position of `Buf`
and `err` as before; otherwise it returns with `Buf` and `Off` as before and
`err = ErrBufferTooSmall`. -/
theorem byte_contract (a : Assembler) (b : Nat)
    (h0 : 0 ≤ a.Off) (h1 : a.Off ≤ (a.Buf.length : Int)) :
    (a.Off + 1 ≤ (a.Buf.length : Int) →
      ∃ a1, a.byte b = .returned a1 ∧ a1.Buf[a.Off.toNat]? = some b ∧
        a1.Off = a.Off + 1 ∧
        (∀ j : Nat, j ≠ a.Off.toNat → a1.Buf[j]? = a.Buf[j]?) ∧
        a1.Buf.length = a.Buf.length ∧ a1.err = a.err) ∧
    (¬ a.Off + 1 ≤ (a.Buf.length : Int) →
      ∃ a1, a.byte b = .returned a1 ∧ a1.Buf = a.Buf ∧ a1.Off = a.Off ∧
        a1.err = some ErrBufferTooSmall) := by
  constructor
  · intro h
    have hlt : a.Off < (a.Buf.length : Int) := by omega
    have hn : a.Off.toNat < a.Buf.length := by omega
    refine ⟨{ a with Buf := a.Buf.set a.Off.toNat b, Off := a.Off + 1 }, ?_, ?_, rfl, ?_, ?_, rfl⟩
    · unfold Assembler.byte
      rw [if_neg (by omega), store_inside a a.Off b _ h0 hlt]
    · simp [hn]
    · intro j hj
      simp [List.getElem?_set, Ne.symm hj]
    · simp
  · intro h
    refine ⟨{ a with err := some ErrBufferTooSmall }, ?_, rfl, rfl, rfl⟩
    unfold Assembler.byte
    rw [if_pos (by omega)]

theorem byte_contract_witness :
    ∃ a1, Assembler.byte ⟨[0, 0], 1, 0, none⟩ 7 = .returned a1 ∧ a1.Buf[1]? = some 7 ∧
      a1.Off = 2 ∧ a1.err = none :=
  have h := (byte_contract ⟨[0, 0], 1, 0, none⟩ 7 (by decide) (by decide)).1 (by decide)
  h.elim fun a1 ha => ⟨a1, ha.1, ha.2.1, ha.2.2.1, ha.2.2.2.2.2⟩

/-- C2. The word primitives `int16`, `int32`, `int64` (width `n` = 2, 4, 8) on a
state with `0 <= Off` and `Off+n <= len(Buf)`: the call returns, `Buf[Off+k]` is
`(i >> 8k) mod 256` for every `k < n`, `Off` is `n` larger, `err` is as before, and
reading the `n` bytes back little-endian gives `i` (for `i` in the range of the
word type). -/
theorem word_little_endian (a : Assembler) (i : Nat) (h0 : 0 ≤ a.Off) :
    (a.Off + 2 ≤ (a.Buf.length : Int) →
      ∃ a1, a.int16 i = .returned a1 ∧
        (∀ k : Nat, k < 2 → a1.Buf[a.Off.toNat + k]? = some ((i >>> (8 * k)) % 256)) ∧
        a1.Off = a.Off + 2 ∧ a1.err = a.err ∧
        (i < 2 ^ 16 → readLE a1.Buf a.Off.toNat 2 = i)) ∧
    (a.Off + 4 ≤ (a.Buf.length : Int) →
      ∃ a1, a.int32 i = .returned a1 ∧
        (∀ k : Nat, k < 4 → a1.Buf[a.Off.toNat + k]? = some ((i >>> (8 * k)) % 256)) ∧
        a1.Off = a.Off + 4 ∧ a1.err = a.err ∧
        (i < 2 ^ 32 → readLE a1.Buf a.Off.toNat 4 = i)) ∧
    (a.Off + 8 ≤ (a.Buf.length : Int) →
      ∃ a1, a.int64 i = .returned a1 ∧
        (∀ k : Nat, k < 8 → a1.Buf[a.Off.toNat + k]? = some ((i >>> (8 * k)) % 256)) ∧
        a1.Off = a.Off + 8 ∧ a1.err = a.err ∧
        (i < 2 ^ 64 → readLE a1.Buf a.Off.toNat 8 = i)) :=
  ⟨int16_word a i h0, int32_word a i h0, int64_word a i h0⟩

theorem word_little_endian_witness :
    ∃ a1, Assembler.int32 ⟨[9, 0, 0, 0, 0, 9], 1, 0, none⟩ 0xdeadbeef = .returned a1 ∧
      (∀ k : Nat, k < 4 → a1.Buf[(1 : Int).toNat + k]? = some ((0xdeadbeef >>> (8 * k)) % 256)) ∧
      a1.Off = 1 + 4 ∧ a1.err = none ∧
      (0xdeadbeef < 2 ^ 32 → readLE a1.Buf (1 : Int).toNat 4 = 0xdeadbeef) :=
  (word_little_endian ⟨[9, 0, 0, 0, 0, 9], 1, 0, none⟩ 0xdeadbeef (by decide)).2.1 (by decide)

/-- C3. Overflow of the word primitives: when the remaining capacity
`len(Buf) - Off` is smaller than the width `n` of `int16`, `int32`, `int64`, the
call returns with `Buf` and `Off` (and `ABI`) as before, no byte of the word
written, and `err = ErrBufferTooSmall`. -/
theorem word_overflow (a : Assembler) (i : Nat)
    (h0 : 0 ≤ a.Off) (h1 : a.Off ≤ (a.Buf.length : Int)) :
    ((a.Buf.length : Int) - a.Off < 2 →
      a.int16 i = .returned ⟨a.Buf, a.Off, a.ABI, some ErrBufferTooSmall⟩) ∧
    ((a.Buf.length : Int) - a.Off < 4 →
      a.int32 i = .returned ⟨a.Buf, a.Off, a.ABI, some ErrBufferTooSmall⟩) ∧
    ((a.Buf.length : Int) - a.Off < 8 →
      a.int64 i = .returned ⟨a.Buf, a.Off, a.ABI, some ErrBufferTooSmall⟩) := by
  have _ := h0
  have _ := h1
  refine ⟨fun h => ?_, fun h => ?_, fun h => ?_⟩
  · unfold Assembler.int16
    rw [if_pos (by omega)]
  · unfold Assembler.int32
    rw [if_pos (by omega)]
  · unfold Assembler.int64
    rw [if_pos (by omega)]

theorem word_overflow_witness :
    Assembler.int64 ⟨[1, 2, 3, 4, 5, 6, 7, 8], 1, 0, none⟩ 0x1122334455667788 =
      .returned ⟨[1, 2, 3, 4, 5, 6, 7, 8], 1, 0, some ErrBufferTooSmall⟩ :=
  (word_overflow ⟨[1, 2, 3, 4, 5, 6, 7, 8], 1, 0, none⟩ 0x1122334455667788
    (by decide) (by decide)).2.2 (by decide)

/-- C4. Cursor invariant: from a state with `0 <= Off <= len(Buf)`, each of `byte`,
`bytes`, `int16`, `int32`, `int64`, `rex`, `modrm`, `sib` returns (it raises no
bounds-check panic, so it stores nowhere outside `[0, len(Buf))`) in a state where
`0 <= Off <= len(Buf)` holds again and `Off` is not smaller than before; `rexBits`
does the same unless it panics with "mismatched instruction sizes". -/
theorem cursor_invariant (a : Assembler) (h : CursorOk a) (b i : Nat) (bs : List Nat)
    (w r x f : Bool) (lsize rsize m1 m2 m3 : Nat) :
    ReturnsWith (a.byte b) (fun a1 => CursorOk a1 ∧ a.Off ≤ a1.Off) ∧
    ReturnsWith (a.bytes bs) (fun a1 => CursorOk a1 ∧ a.Off ≤ a1.Off) ∧
    ReturnsWith (a.int16 i) (fun a1 => CursorOk a1 ∧ a.Off ≤ a1.Off) ∧
    ReturnsWith (a.int32 i) (fun a1 => CursorOk a1 ∧ a.Off ≤ a1.Off) ∧
    ReturnsWith (a.int64 i) (fun a1 => CursorOk a1 ∧ a.Off ≤ a1.Off) ∧
    ReturnsWith (a.rex w r x f) (fun a1 => CursorOk a1 ∧ a.Off ≤ a1.Off) ∧
    ReturnsWith (a.modrm m1 m2 m3) (fun a1 => CursorOk a1 ∧ a.Off ≤ a1.Off) ∧
    ReturnsWith (a.sib m1 m2 m3) (fun a1 => CursorOk a1 ∧ a.Off ≤ a1.Off) ∧
    (ReturnsWith (a.rexBits lsize rsize r x f) (fun a1 => CursorOk a1 ∧ a.Off ≤ a1.Off) ∨
      a.rexBits lsize rsize r x f = .panicked "mismatched instruction sizes" a) := by
  have k : ∀ s, Step a s → CursorOk s ∧ a.Off ≤ s.Off := fun s hs => ⟨hs.1, hs.2.1⟩
  refine ⟨(byte_step a b h).mono k, (bytes_step bs a h).mono k, (int16_step a i h).mono k,
    (int32_step a i h).mono k, (int64_step a i h).mono k, (rex_step a w r x f h).mono k,
    (modrm_step a m1 m2 m3 h).mono k, (sib_step a m1 m2 m3 h).mono k, ?_⟩
  unfold Assembler.rexBits
  split
  · exact Or.inr rfl
  · exact Or.inl ((rex_step a _ r x f h).mono k)

theorem cursor_invariant_witness :
    ReturnsWith (Assembler.bytes ⟨[0, 0, 0], 1, 0, none⟩ [1, 2, 3])
      (fun a1 => CursorOk a1 ∧ (1 : Int) ≤ a1.Off) :=
  (cursor_invariant ⟨[0, 0, 0], 1, 0, none⟩ (by decide) 0 0 [1, 2, 3]
    false false false false 0 0 0 0 0).2.1

/-- C8. Frame of the writer: from a state with `0 <= Off <= len(Buf)`, each of
`byte`, `bytes`, `int16`, `int32`, `int64`, `rex`, `modrm`, `sib` returns with
`len(Buf)` the same, every position of `Buf` below the old `Off` the same, every
position at or above the new `Off` the same, and `ABI` the same. -/
theorem writer_frame (a : Assembler) (h : CursorOk a) (b i : Nat) (bs : List Nat)
    (w r x f : Bool) (m1 m2 m3 : Nat) :
    ReturnsWith (a.byte b) (Frame a) ∧
    ReturnsWith (a.bytes bs) (Frame a) ∧
    ReturnsWith (a.int16 i) (Frame a) ∧
    ReturnsWith (a.int32 i) (Frame a) ∧
    ReturnsWith (a.int64 i) (Frame a) ∧
    ReturnsWith (a.rex w r x f) (Frame a) ∧
    ReturnsWith (a.modrm m1 m2 m3) (Frame a) ∧
    ReturnsWith (a.sib m1 m2 m3) (Frame a) := by
  have k : ∀ s, Step a s → Frame a s := fun s hs => hs.2.2
  exact ⟨(byte_step a b h).mono k, (bytes_step bs a h).mono k, (int16_step a i h).mono k,
    (int32_step a i h).mono k, (int64_step a i h).mono k, (rex_step a w r x f h).mono k,
    (modrm_step a m1 m2 m3 h).mono k, (sib_step a m1 m2 m3 h).mono k⟩

theorem writer_frame_witness :
    ReturnsWith (Assembler.int16 ⟨[5, 6, 7, 8], 1, 1, none⟩ 0xbeef)
      (Frame ⟨[5, 6, 7, 8], 1, 1, none⟩) :=
  (writer_frame ⟨[5, 6, 7, 8], 1, 1, none⟩ (by decide) 0 0xbeef [] false false false false
    0 0 0).2.2.1

/-- C7. `Error()` returns the error that was in the slot and leaves the slot empty,
with `Buf`, `Off` and `ABI` as they were; a second `Error()` right after it returns
`nil`. -/
theorem Error_drains (a : Assembler) :
    a.Error.1 = a.err ∧ a.Error.2.err = none ∧ a.Error.2.Buf = a.Buf ∧
      a.Error.2.Off = a.Off ∧ a.Error.2.ABI = a.ABI ∧ a.Error.2.Error.1 = none :=
  ⟨rfl, rfl, rfl, rfl, rfl, rfl⟩

/-- C9. `rex(w, r, x, b)` with `PFX_REX = 0x40`, `REXW = 8`, `REXR = 4`, `REXX = 2`,
`REXB = 1`: with all four flags false it returns the state untouched; otherwise it
is the append `byte(v)` of the one byte `v = 0x40 + 8[w] + 4[r] + 2[x] + [b]`, whose
high nibble is `0100` and whose bits 3, 2, 1, 0 are `w`, `r`, `x`, `b`. -/
theorem rex_byte (a : Assembler) (w r x b : Bool) :
    ((w = false ∧ r = false ∧ x = false ∧ b = false) → a.rex w r x b = .returned a) ∧
    (¬ (w = false ∧ r = false ∧ x = false ∧ b = false) →
      a.rex w r x b = a.byte (0x40 + 8 * w.toNat + 4 * r.toNat + 2 * x.toNat + b.toNat)) ∧
    (0x40 + 8 * w.toNat + 4 * r.toNat + 2 * x.toNat + b.toNat) / 16 = 4 ∧
    (0x40 + 8 * w.toNat + 4 * r.toNat + 2 * x.toNat + b.toNat).testBit 3 = w ∧
    (0x40 + 8 * w.toNat + 4 * r.toNat + 2 * x.toNat + b.toNat).testBit 2 = r ∧
    (0x40 + 8 * w.toNat + 4 * r.toNat + 2 * x.toNat + b.toNat).testBit 1 = x ∧
    (0x40 + 8 * w.toNat + 4 * r.toNat + 2 * x.toNat + b.toNat).testBit 0 = b := by
  cases w <;> cases r <;> cases x <;> cases b <;>
    simp [Assembler.rex, rexFlagBits, PFX_REX, REXW, REXR, REXX, REXB] <;> decide

theorem rex_byte_witness :
    Assembler.rex ⟨[0, 0], 0, 0, none⟩ true false false true =
      Assembler.byte ⟨[0, 0], 0, 0, none⟩ (0x40 + 8 * 1 + 4 * 0 + 2 * 0 + 1) :=
  (rex_byte ⟨[0, 0], 0, 0, none⟩ true false false true).2.1 (by decide)

/-- C5, as the claim states it, fails: `int32` overflows a three-byte buffer and
sets the error, and the `byte` that follows is still written at `Buf[0]` and moves
`Off` to 1. -/
theorem sticky_noop_counterexample :
    Assembler.int32 ⟨[0, 0, 0], 0, 0, none⟩ 0xdeadbeef =
      .returned ⟨[0, 0, 0], 0, 0, some ErrBufferTooSmall⟩ ∧
    Assembler.byte ⟨[0, 0, 0], 0, 0, some ErrBufferTooSmall⟩ 7 =
      .returned ⟨[7, 0, 0], 1, 0, some ErrBufferTooSmall⟩ := by
  decide

/-- C5, amended. From a state with `0 <= Off <= len(Buf)` in which the error is set
(`err != nil`), every append (`byte`, `bytes`, `int16`, `int32`, `int64`, `rex`,
`modrm`, `sib`) returns with the error still set, and it leaves `Buf` and `Off`
unchanged whenever it does not fit, i.e. `Off+1 > len(Buf)` for `byte`, `bytes`,
`rex`, `modrm`, `sib` and `Off+n > len(Buf)` for `int16`, `int32`, `int64`
(`n` = 2, 4, 8). -/
theorem sticky_error_appends (a : Assembler) (hok : CursorOk a) (h : a.err ≠ none)
    (b i : Nat) (bs : List Nat) (w r x f : Bool) (m1 m2 m3 : Nat) :
    (ReturnsWith (a.byte b) (fun a1 => a1.err ≠ none) ∧
      ReturnsWith (a.bytes bs) (fun a1 => a1.err ≠ none) ∧
      ReturnsWith (a.int16 i) (fun a1 => a1.err ≠ none) ∧
      ReturnsWith (a.int32 i) (fun a1 => a1.err ≠ none) ∧
      ReturnsWith (a.int64 i) (fun a1 => a1.err ≠ none) ∧
      ReturnsWith (a.rex w r x f) (fun a1 => a1.err ≠ none) ∧
      ReturnsWith (a.modrm m1 m2 m3) (fun a1 => a1.err ≠ none) ∧
      ReturnsWith (a.sib m1 m2 m3) (fun a1 => a1.err ≠ none)) ∧
    (a.Off + 1 > (a.Buf.length : Int) →
      ReturnsWith (a.byte b) (fun a1 => a1.Buf = a.Buf ∧ a1.Off = a.Off) ∧
      ReturnsWith (a.bytes bs) (fun a1 => a1.Buf = a.Buf ∧ a1.Off = a.Off) ∧
      ReturnsWith (a.rex w r x f) (fun a1 => a1.Buf = a.Buf ∧ a1.Off = a.Off) ∧
      ReturnsWith (a.modrm m1 m2 m3) (fun a1 => a1.Buf = a.Buf ∧ a1.Off = a.Off) ∧
      ReturnsWith (a.sib m1 m2 m3) (fun a1 => a1.Buf = a.Buf ∧ a1.Off = a.Off)) ∧
    (a.Off + 2 > (a.Buf.length : Int) →
      ReturnsWith (a.int16 i) (fun a1 => a1.Buf = a.Buf ∧ a1.Off = a.Off)) ∧
    (a.Off + 4 > (a.Buf.length : Int) →
      ReturnsWith (a.int32 i) (fun a1 => a1.Buf = a.Buf ∧ a1.Off = a.Off)) ∧
    (a.Off + 8 > (a.Buf.length : Int) →
      ReturnsWith (a.int64 i) (fun a1 => a1.Buf = a.Buf ∧ a1.Off = a.Off)) := by
  refine ⟨⟨returns_err (byte_step a b hok) (byte_err a b h),
    returns_err (bytes_step bs a hok) (bytes_err bs a h),
    returns_err (int16_step a i hok) (int16_err a i h),
    returns_err (int32_step a i hok) (int32_err a i h),
    returns_err (int64_step a i hok) (int64_err a i h),
    returns_err (rex_step a w r x f hok) (rex_err a w r x f h),
    returns_err (modrm_step a m1 m2 m3 hok) (byte_err a _ h),
    returns_err (sib_step a m1 m2 m3 hok) (byte_err a _ h)⟩, ?_, ?_, ?_, ?_⟩
  · intro hf
    exact ⟨⟨_, byte_full a b hf, rfl, rfl⟩, bytes_full bs a hf, rex_full a w r x f hf,
      ⟨_, byte_full a _ hf, rfl, rfl⟩, ⟨_, byte_full a _ hf, rfl, rfl⟩⟩
  · intro hf
    exact ⟨_, int16_full a i hf, rfl, rfl⟩
  · intro hf
    exact ⟨_, int32_full a i hf, rfl, rfl⟩
  · intro hf
    exact ⟨_, int64_full a i hf, rfl, rfl⟩

theorem sticky_error_appends_witness :
    ReturnsWith (Assembler.byte ⟨[1, 2], 2, 0, some ErrBufferTooSmall⟩ 7)
      (fun a1 => a1.err ≠ none) ∧
    ReturnsWith (Assembler.bytes ⟨[1, 2], 2, 0, some ErrBufferTooSmall⟩ [8, 9])
      (fun a1 => a1.Buf = [1, 2] ∧ a1.Off = 2) :=
  have h := sticky_error_appends ⟨[1, 2], 2, 0, some ErrBufferTooSmall⟩ (by decide) (by decide)
    7 0 [8, 9] false false false false 0 0 0
  ⟨h.1.1, (h.2.1 (by decide)).2.1⟩

/-- C6. The doc comment of `Assembler` says that attempts to assemble off the end
of `Buf` panic. The code does not: on a two-byte buffer with `Off = 2` the call
`byte(7)` returns normally with `Buf` and `Off` as they were and
`err = ErrBufferTooSmall`, and so does `int32(0xdeadbeef)` on a two-byte buffer
with `Off = 0`. -/
theorem overflow_returns_instead_of_panic :
    Assembler.byte ⟨[0, 0], 2, 0, none⟩ 7 =
      .returned ⟨[0, 0], 2, 0, some ErrBufferTooSmall⟩ ∧
    Assembler.int32 ⟨[0, 0], 0, 0, none⟩ 0xdeadbeef =
      .returned ⟨[0, 0], 0, 0, some ErrBufferTooSmall⟩ := by
  decide

/-- The extent of that divergence. For every state whose cursor is not past the end
(`Off <= len(Buf)`) and with `Off+n > len(Buf)`, the append primitive of width `n`
(`byte`, `int16`, `int32`, `int64`) returns normally with `Buf`, `Off` and `ABI` as
before and `err = ErrBufferTooSmall`; the one panic these primitives raise is the
bounds check at a negative `Off`, before anything was written. -/
theorem overflow_returns_error (a : Assembler) (b i : Nat)
    (hub : a.Off ≤ (a.Buf.length : Int)) :
    ((a.Off + 1 > (a.Buf.length : Int) →
        a.byte b = .returned ⟨a.Buf, a.Off, a.ABI, some ErrBufferTooSmall⟩) ∧
      (a.Off + 2 > (a.Buf.length : Int) →
        a.int16 i = .returned ⟨a.Buf, a.Off, a.ABI, some ErrBufferTooSmall⟩) ∧
      (a.Off + 4 > (a.Buf.length : Int) →
        a.int32 i = .returned ⟨a.Buf, a.Off, a.ABI, some ErrBufferTooSmall⟩) ∧
      (a.Off + 8 > (a.Buf.length : Int) →
        a.int64 i = .returned ⟨a.Buf, a.Off, a.ABI, some ErrBufferTooSmall⟩)) ∧
    (∀ m s, (a.byte b = .panicked m s ∨ a.int16 i = .panicked m s ∨
        a.int32 i = .panicked m s ∨ a.int64 i = .panicked m s) →
      a.Off < 0 ∧ m = indexOutOfRange ∧ s = a) := by
  have _ := hub
  refine ⟨⟨byte_full a b, int16_full a i, int32_full a i, int64_full a i⟩, ?_⟩
  intro m s hp
  rcases hp with hp | hp | hp | hp
  · exact byte_panic a b m s hp
  · exact int16_panic a i m s hp
  · exact int32_panic a i m s hp
  · exact int64_panic a i m s hp

/-- C10. `rexBits(lsize, rsize, r, x, b)` panics with "mismatched instruction sizes"
if and only if `lsize != 0`, `rsize != 0` and `lsize != rsize`, and then the state
is exactly what it was (nothing written); when either size is 0 or both are equal
it is `rex` at the effective width, which from a state with `0 <= Off <= len(Buf)`
returns without any panic. -/
theorem rexBits_mismatch (a : Assembler) (lsize rsize : Nat) (r x b : Bool) :
    ((∃ s, a.rexBits lsize rsize r x b = .panicked "mismatched instruction sizes" s) ↔
      (lsize ≠ 0 ∧ rsize ≠ 0 ∧ lsize ≠ rsize)) ∧
    ((lsize ≠ 0 ∧ rsize ≠ 0 ∧ lsize ≠ rsize) →
      a.rexBits lsize rsize r x b = .panicked "mismatched instruction sizes" a) ∧
    ((lsize = 0 ∨ rsize = 0 ∨ lsize = rsize) → CursorOk a →
      ∃ a1, a.rexBits lsize rsize r x b = .returned a1) := by
  have hne : indexOutOfRange ≠ "mismatched instruction sizes" := by decide
  refine ⟨⟨?_, ?_⟩, ?_, ?_⟩
  · rintro ⟨s, hs⟩
    by_contra hc
    unfold Assembler.rexBits at hs
    rw [if_neg hc] at hs
    exact hne (rex_panic a _ r x b _ s hs).2.1.symm
  · intro hc
    exact ⟨a, by unfold Assembler.rexBits; rw [if_pos hc]⟩
  · intro hc
    unfold Assembler.rexBits
    rw [if_pos hc]
  · intro hc hok
    have hn : ¬ (lsize ≠ 0 ∧ rsize ≠ 0 ∧ lsize ≠ rsize) := by
      rintro ⟨h1, h2, h3⟩
      rcases hc with hc | hc | hc
      · exact h1 hc
      · exact h2 hc
      · exact h3 hc
    unfold Assembler.rexBits
    rw [if_neg hn]
    obtain ⟨a1, e1, _⟩ := rex_step a _ r x b hok
    exact ⟨a1, e1⟩

theorem rexBits_mismatch_witness :
    Assembler.rexBits ⟨[0, 0], 0, 0, none⟩ 32 64 false false true =
      .panicked "mismatched instruction sizes" ⟨[0, 0], 0, 0, none⟩ ∧
    ∃ a1, Assembler.rexBits ⟨[0, 0], 0, 0, none⟩ 0 64 false false true = .returned a1 :=
  ⟨(rexBits_mismatch ⟨[0, 0], 0, 0, none⟩ 32 64 false false true).2.1 (by decide),
    (rexBits_mismatch ⟨[0, 0], 0, 0, none⟩ 0 64 false false true).2.2 (by decide) (by decide)⟩

/-! ## The addressing bytes -/

theorem or_mod_256 (a b : Nat) : (a ||| b) % 256 = a % 256 ||| b % 256 := by
  apply Nat.eq_of_testBit_eq
  intro i
  rw [show (256 : Nat) = 2 ^ 8 by norm_num]
  simp only [Nat.testBit_mod_two_pow, Nat.testBit_or]
  cases decide (i < 8) <;> simp

theorem field_byte (x y z : Nat) (hz : z < 256) :
    ((x <<< 6) % 256) ||| ((y <<< 3) % 256) ||| z = ((x <<< 6) ||| (y <<< 3) ||| z) % 256 := by
  rw [or_mod_256, or_mod_256, Nat.mod_eq_of_lt hz]

theorem field_recover : ∀ x < 4, ∀ y < 8, ∀ z < 8,
    (((x <<< 6) ||| (y <<< 3) ||| z) % 256) >>> 6 = x ∧
    ((((x <<< 6) ||| (y <<< 3) ||| z) % 256) >>> 3) &&& 7 = y ∧
    (((x <<< 6) ||| (y <<< 3) ||| z) % 256) &&& 7 = z := by
  decide

/-- C11. For byte arguments `x`, `y`, `z`, both `modrm(x, y, z)` and `sib(x, y, z)`
are the append `byte(v)` of the one byte `v = ((x << 6) | (y << 3) | z) mod 256`;
for `x < 4`, `y < 8`, `z < 8` the fields are read back from it as `v >> 6 = x`,
`(v >> 3) & 7 = y`, `v & 7 = z`, so that distinct in-range triples give distinct
bytes. -/
theorem modrm_sib_fields (a : Assembler) (x y z : Nat) (hz : z < 256) :
    a.modrm x y z = a.byte (((x <<< 6) ||| (y <<< 3) ||| z) % 256) ∧
    a.sib x y z = a.byte (((x <<< 6) ||| (y <<< 3) ||| z) % 256) ∧
    (x < 4 → y < 8 → z < 8 →
      (((x <<< 6) ||| (y <<< 3) ||| z) % 256) >>> 6 = x ∧
      ((((x <<< 6) ||| (y <<< 3) ||| z) % 256) >>> 3) &&& 7 = y ∧
      (((x <<< 6) ||| (y <<< 3) ||| z) % 256) &&& 7 = z) ∧
    (∀ x1 y1 z1 : Nat, x < 4 → y < 8 → z < 8 → x1 < 4 → y1 < 8 → z1 < 8 →
      ((x <<< 6) ||| (y <<< 3) ||| z) % 256 = ((x1 <<< 6) ||| (y1 <<< 3) ||| z1) % 256 →
      x = x1 ∧ y = y1 ∧ z = z1) := by
  refine ⟨?_, ?_, fun hx hy hz8 => field_recover x hx y hy z hz8, ?_⟩
  · unfold Assembler.modrm
    rw [field_byte x y z hz]
  · unfold Assembler.sib
    rw [field_byte x y z hz]
  · intro x1 y1 z1 hx hy hz8 hx1 hy1 hz1 he
    have h := field_recover x hx y hy z hz8
    have h1 := field_recover x1 hx1 y1 hy1 z1 hz1
    rw [he] at h
    exact ⟨h.1.symm.trans h1.1, h.2.1.symm.trans h1.2.1, h.2.2.symm.trans h1.2.2⟩

theorem modrm_sib_fields_witness :
    Assembler.modrm ⟨[0, 0], 0, 0, none⟩ 3 2 5 =
      Assembler.byte ⟨[0, 0], 0, 0, none⟩ (((3 <<< 6) ||| (2 <<< 3) ||| 5) % 256) ∧
    (((3 <<< 6) ||| (2 <<< 3) ||| 5) % 256) >>> 6 = 3 :=
  have h := modrm_sib_fields ⟨[0, 0], 0, 0, none⟩ 3 2 5 (by decide)
  ⟨h.1, (h.2.2.1 (by decide) (by decide) (by decide)).1⟩

/-! ## Relative displacements -/

theorem wrap64_lt (x : Int) : wrap64 x < 2 ^ 64 := by
  unfold wrap64
  omega

theorem wrap64_sub4 (x : Int) : wrap64 ((wrap64 x : Int) - 4) = wrap64 (x - 4) := by
  unfold wrap64
  omega

theorem range_check (d : Nat) (hd : d < 2 ^ 64) :
    wrap64 (toInt32 d) = d ↔ (-2 ^ 31 ≤ signed64 d ∧ signed64 d ≤ 2 ^ 31 - 1) := by
  unfold wrap64 toInt32 signed64
  split_ifs <;> omega

theorem rel32_eq (a : Assembler) (P target : Nat) (hok : CursorOk a) :
    a.rel32 P target =
      if wrap64 (toInt32 (rel32Disp P target)) ≠ rel32Disp P target then
        .panicked "call rel: target out of range" a
      else a.int32 (rel32Disp P target % 2 ^ 32) := by
  have hok1 : 0 ≤ a.Off ∧ a.Off ≤ (a.Buf.length : Int) := hok
  unfold Assembler.rel32 rel32Disp
  rw [if_pos hok1]
  simp only [wrap64_sub4]

theorem rel32Disp_lt (P target : Nat) : rel32Disp P target < 2 ^ 64 :=
  wrap64_lt _

theorem rel32_out (a : Assembler) (P target : Nat) (hok : CursorOk a)
    (h : signed64 (rel32Disp P target) < -2 ^ 31 ∨
      2 ^ 31 - 1 < signed64 (rel32Disp P target)) :
    a.rel32 P target = .panicked "call rel: target out of range" a := by
  rw [rel32_eq a P target hok, if_pos]
  intro he
  have := (range_check _ (rel32Disp_lt P target)).1 he
  omega

theorem rel32_in (a : Assembler) (P target : Nat) (hok : CursorOk a)
    (h1 : -2 ^ 31 ≤ signed64 (rel32Disp P target))
    (h2 : signed64 (rel32Disp P target) ≤ 2 ^ 31 - 1) :
    a.rel32 P target = a.int32 (rel32Disp P target % 2 ^ 32) := by
  rw [rel32_eq a P target hok, if_neg]
  intro he
  exact he ((range_check _ (rel32Disp_lt P target)).2 ⟨h1, h2⟩)

theorem twos_low (d : Nat) : twosComplement32 (signed64 d) = d % 2 ^ 32 := by
  unfold twosComplement32 signed64
  split_ifs <;> omega

theorem disp_exact (P target : Nat)
    (h1 : -2 ^ 63 ≤ (target : Int) - (P : Int) - 4)
    (h2 : (target : Int) - (P : Int) - 4 < 2 ^ 63) :
    signed64 (rel32Disp P target) = (target : Int) - (P : Int) - 4 := by
  unfold signed64 rel32Disp wrap64
  split_ifs <;> omega

/-- C12. `rel32(target)` from a state with `0 <= Off <= len(Buf)`, with `P` the
current write address and `d = (target - P - 4) mod 2^64`: it panics if and only
if `d`, read as a signed 64-bit integer, is outside `[-2^31, 2^31 - 1]`, and then
with "call rel: target out of range" and nothing written; otherwise it is
`int32` of the low 32 bits of `d`, so that with four bytes of room the bytes
written are the little-endian two's-complement pattern of the displacement,
`Off` is 4 larger and `err` is as before. When the 64-bit subtraction does not
wrap, the signed `d` is the integer `target - (P + 4)`. -/
theorem rel32_contract (a : Assembler) (P target : Nat) (hok : CursorOk a) :
    ((∃ m s, a.rel32 P target = .panicked m s) ↔
      (signed64 (rel32Disp P target) < -2 ^ 31 ∨
        2 ^ 31 - 1 < signed64 (rel32Disp P target))) ∧
    ((signed64 (rel32Disp P target) < -2 ^ 31 ∨
        2 ^ 31 - 1 < signed64 (rel32Disp P target)) →
      a.rel32 P target = .panicked "call rel: target out of range" a) ∧
    ((-2 ^ 31 ≤ signed64 (rel32Disp P target) ∧
        signed64 (rel32Disp P target) ≤ 2 ^ 31 - 1) →
      a.rel32 P target = a.int32 (rel32Disp P target % 2 ^ 32) ∧
      (a.Off + 4 ≤ (a.Buf.length : Int) →
        ∃ a1, a.rel32 P target = .returned a1 ∧
          (∀ k : Nat, k < 4 → a1.Buf[a.Off.toNat + k]? =
            some ((twosComplement32 (signed64 (rel32Disp P target)) >>> (8 * k)) % 256)) ∧
          a1.Off = a.Off + 4 ∧ a1.err = a.err)) ∧
    (-2 ^ 63 ≤ (target : Int) - (P : Int) - 4 →
      (target : Int) - (P : Int) - 4 < 2 ^ 63 →
      signed64 (rel32Disp P target) = (target : Int) - (P : Int) - 4) := by
  refine ⟨⟨?_, ?_⟩, rel32_out a P target hok, ?_, ?_⟩
  · rintro ⟨m, s, hp⟩
    by_contra hc
    rw [rel32_in a P target hok (by omega) (by omega)] at hp
    have := (int32_panic a _ m s hp).1
    have := hok.1
    omega
  · intro h
    exact ⟨_, _, rel32_out a P target hok h⟩
  · rintro ⟨h1, h2⟩
    refine ⟨rel32_in a P target hok h1 h2, fun hfit => ?_⟩
    obtain ⟨a1, e1, hb, ho, he, _⟩ := int32_word a (rel32Disp P target % 2 ^ 32) hok.1 hfit
    refine ⟨a1, ?_, ?_, ho, he⟩
    · rw [rel32_in a P target hok h1 h2]
      exact e1
    · intro k hk
      rw [twos_low]
      exact hb k hk
  · intro h1 h2
    exact disp_exact P target h1 h2

theorem rel32_contract_witness :
    Assembler.rel32 ⟨[0, 0, 0, 0, 0, 0], 1, 0, none⟩ (gojitAddr 4096 1) 4000 =
      Assembler.int32 ⟨[0, 0, 0, 0, 0, 0], 1, 0, none⟩
        (rel32Disp (gojitAddr 4096 1) 4000 % 2 ^ 32) :=
  ((rel32_contract ⟨[0, 0, 0, 0, 0, 0], 1, 0, none⟩ (gojitAddr 4096 1) 4000
    (by decide)).2.2.1 (by decide)).1

/-- C13, as the claim states it, fails in both directions. With `P = 2^31` and
`target = 1` the distance is `2^31 - 1`, inside the claimed range, and `rel32`
panics; with `P = 0` and `target = 2^31` the distance is `2^31`, outside the
claimed range, and `rel32` returns, having written the displacement `2^31 - 4`. -/
theorem rel32_range_counterexample :
    Assembler.rel32 ⟨[0, 0, 0, 0], 0, 0, none⟩ 2147483648 1 =
      .panicked "call rel: target out of range" ⟨[0, 0, 0, 0], 0, 0, none⟩ ∧
    Assembler.rel32 ⟨[0, 0, 0, 0], 0, 0, none⟩ 0 2147483648 =
      .returned ⟨[0xfc, 0xff, 0xff, 0x7f], 4, 0, none⟩ := by
  decide

/-- C13, amended. The displacement is counted from the end of the four-byte field:
from a state with `0 <= Off <= len(Buf)`, with `P` the current write address,
`rel32(target)` returns for every target with
`-2^31 <= target - (P + 4) <= 2^31 - 1`, and panics with "call rel: target out of
range" for every target outside that range whose distance `target - (P + 4)` is
within the signed 64-bit range (so that the subtraction does not wrap). -/
theorem rel32_range (a : Assembler) (P target : Nat) (hok : CursorOk a) :
    ((-2 ^ 31 ≤ (target : Int) - (P : Int) - 4 ∧
        (target : Int) - (P : Int) - 4 ≤ 2 ^ 31 - 1) →
      ∃ a1, a.rel32 P target = .returned a1) ∧
    (((target : Int) - (P : Int) - 4 < -2 ^ 31 ∨
        2 ^ 31 - 1 < (target : Int) - (P : Int) - 4) →
      -2 ^ 63 ≤ (target : Int) - (P : Int) - 4 →
      (target : Int) - (P : Int) - 4 < 2 ^ 63 →
      a.rel32 P target = .panicked "call rel: target out of range" a) := by
  constructor
  · rintro ⟨h1, h2⟩
    have hs := disp_exact P target (by omega) (by omega)
    rw [rel32_in a P target hok (by omega) (by omega)]
    obtain ⟨a1, e1, _⟩ := int32_step a (rel32Disp P target % 2 ^ 32) hok
    exact ⟨a1, e1⟩
  · intro h h1 h2
    have hs := disp_exact P target h1 h2
    exact rel32_out a P target hok (by omega)

theorem rel32_range_witness :
    ∃ a1, Assembler.rel32 ⟨[0, 0, 0, 0], 0, 0, none⟩ 4096 4100 = .returned a1 :=
  (rel32_range ⟨[0, 0, 0, 0], 0, 0, none⟩ 4096 4100 (by decide)).1 (by decide)

/-- C14, as the claim states it, fails: the assembler `New` gives has
`ABI = CgoABI`, and `BuildTo` on it panics with "bad ABI". -/
theorem BuildTo_cgo_counterexample :
    New (.ok [0xc3]) = .ok ⟨[0xc3], 0, CgoABI, none⟩ ∧
    Assembler.BuildTo ⟨[0xc3], 0, CgoABI, none⟩ =
      .panicked "bad ABI" ⟨[0xc3], 0, CgoABI, none⟩ :=
  ⟨rfl, by decide⟩

/-- C14, amended. `BuildTo` accepts one calling convention: it does not fail for an
assembler whose `ABI` is `GoABI` (the value `NewGoABI` gives), and it panics with
"bad ABI", leaving the assembler as it was, for every other `ABI` value, `CgoABI`
(the value `New` gives) included. -/
theorem BuildTo_abi (a : Assembler) :
    (a.ABI = GoABI → a.BuildTo = .returned a) ∧
    (a.ABI ≠ GoABI → a.BuildTo = .panicked "bad ABI" a) ∧
    (∀ buf : List Nat, ∃ a1, NewGoABI (.ok buf) = .ok a1 ∧ a1.ABI = GoABI ∧
      a1.BuildTo = .returned a1) ∧
    (∀ buf : List Nat, ∃ a1, New (.ok buf) = .ok a1 ∧ a1.ABI = CgoABI ∧
      a1.BuildTo = .panicked "bad ABI" a1) := by
  refine ⟨fun h => ?_, fun h => ?_, fun buf => ⟨_, rfl, rfl, ?_⟩, fun buf => ⟨_, rfl, rfl, ?_⟩⟩
  · unfold Assembler.BuildTo gojitBuildTo
    rw [if_pos h]
  · unfold Assembler.BuildTo
    rw [if_neg h]
  · unfold Assembler.BuildTo gojitBuildTo
    rw [if_pos rfl]
  · exact if_neg (by decide : ¬ ((0 : ABI) = GoABI))

theorem BuildTo_abi_witness :
    Assembler.BuildTo ⟨[0xc3], 1, GoABI, none⟩ = .returned ⟨[0xc3], 1, GoABI, none⟩ ∧
    Assembler.BuildTo ⟨[0xc3], 1, 7, none⟩ = .panicked "bad ABI" ⟨[0xc3], 1, 7, none⟩ :=
  ⟨(BuildTo_abi ⟨[0xc3], 1, GoABI, none⟩).1 rfl,
    (BuildTo_abi ⟨[0xc3], 1, 7, none⟩).2.1 (by decide)⟩

/-- C15, as the claim states it, fails: `InstMovl` is in the table with width 32,
neither 8 nor 64; and the byte form `movb` is in the table with width 64. -/
theorem table_width_counterexample :
    InstMovl ∈ instructionTable ∧ InstMovl.bits = 32 ∧
    InstMovb ∈ instructionTable ∧ InstMovb.Mnemonic = "movb" ∧ InstMovb.bits = 64 := by
  decide

/-- C15, amended. Every descriptor of the table has `bits` 8 or 64, except
`InstMovl`, to which `as32Bits` gives 32; the byte forms `addb`, `adcb`, `andb`,
`cmpb`, `orb`, `sbbb`, `subb`, `testb`, `xorb`, `shlb`, `shrb`, `sarb` have width
8, their full-width counterparts and `mov` have width 64, and each byte form
(`movb` too) is an entry distinct from its counterpart. -/
theorem table_width :
    (∀ d ∈ instructionTable, d.bits = 8 ∨ d.bits = 64 ∨ (d = InstMovl ∧ d.bits = 32)) ∧
    (InstAddb.bits = 8 ∧ InstAdcb.bits = 8 ∧ InstAndb.bits = 8 ∧ InstCmpb.bits = 8 ∧
      InstOrb.bits = 8 ∧ InstSbbb.bits = 8 ∧ InstSubb.bits = 8 ∧ InstTestb.bits = 8 ∧
      InstXorb.bits = 8 ∧ InstShlb.bits = 8 ∧ InstShrb.bits = 8 ∧ InstSarb.bits = 8) ∧
    (InstAdd.bits = 64 ∧ InstAdc.bits = 64 ∧ InstAnd.bits = 64 ∧ InstCmp.bits = 64 ∧
      InstOr.bits = 64 ∧ InstSbb.bits = 64 ∧ InstSub.bits = 64 ∧ InstTest.bits = 64 ∧
      InstXor.bits = 64 ∧ InstShl.bits = 64 ∧ InstShr.bits = 64 ∧ InstSar.bits = 64 ∧
      InstMov.bits = 64) ∧
    (InstAddb ≠ InstAdd ∧ InstAdcb ≠ InstAdc ∧ InstAndb ≠ InstAnd ∧ InstCmpb ≠ InstCmp ∧
      InstOrb ≠ InstOr ∧ InstSbbb ≠ InstSbb ∧ InstSubb ≠ InstSub ∧ InstTestb ≠ InstTest ∧
      InstXorb ≠ InstXor ∧ InstShlb ≠ InstShl ∧ InstShrb ≠ InstShr ∧ InstSarb ≠ InstSar ∧
      InstMovb ≠ InstMov) := by
  decide

theorem table_width_witness : InstShlb.bits = 8 ∨ InstShlb.bits = 64 ∨
    (InstShlb = InstMovl ∧ InstShlb.bits = 32) :=
  table_width.1 InstShlb (by decide)

/-- C16. `as32Bits(d)` leaves `d` as it was, and the descriptor it returns has
`Mnemonic = d.Mnemonic ++ "l"`, `bits = 32` and `imm_r`, `imm_rm` (`op`, `sub`,
`immbits`), `r_rm`, `rm_r` equal to those of `d`; so `InstMovl` has the opcode data
of `InstMov`, and `InstMov` still has `Mnemonic` "mov" and `bits` 64. -/
theorem as32Bits_frame (d : Instruction) :
    (as32Bits d).1 = d ∧
    (as32Bits d).2.Mnemonic = d.Mnemonic ++ "l" ∧ (as32Bits d).2.bits = 32 ∧
    (as32Bits d).2.imm_r = d.imm_r ∧ (as32Bits d).2.imm_rm.op = d.imm_rm.op ∧
    (as32Bits d).2.imm_rm.sub = d.imm_rm.sub ∧
    (as32Bits d).2.imm_rm.immbits = d.imm_rm.immbits ∧
    (as32Bits d).2.r_rm = d.r_rm ∧ (as32Bits d).2.rm_r = d.rm_r ∧
    (InstMovl.imm_r = InstMov.imm_r ∧ InstMovl.imm_rm = InstMov.imm_rm ∧
      InstMovl.r_rm = InstMov.r_rm ∧ InstMovl.rm_r = InstMov.rm_r ∧
      InstMovl.Mnemonic = "movl" ∧ InstMovl.bits = 32) ∧
    ((as32Bits InstMov).1 = InstMov ∧ InstMov.Mnemonic = "mov" ∧ InstMov.bits = 64) :=
  ⟨rfl, rfl, rfl, rfl, rfl, rfl, rfl, rfl, rfl, by decide, by decide⟩

/-- C17. For all flags `r`, `x`, `b`: `rexBits(64, 64, r, x, b)` is the append of
the one byte `0x48 + 4[r] + 2[x] + [b]`, whose bit 3 is set; `rexBits(32, 32, r, x,
b)` is the append of `0x40 + 4[r] + 2[x] + [b]`, the same byte with bit 3 clear,
when one of the flags is set, and appends nothing when none is; bits 2, 1, 0 are
`r`, `x`, `b` in both bytes. -/
theorem rexBits_width (a : Assembler) (r x b : Bool) :
    a.rexBits 64 64 r x b = a.byte (0x48 + 4 * r.toNat + 2 * x.toNat + b.toNat) ∧
    ((r = true ∨ x = true ∨ b = true) →
      a.rexBits 32 32 r x b = a.byte (0x40 + 4 * r.toNat + 2 * x.toNat + b.toNat)) ∧
    ((r = false ∧ x = false ∧ b = false) → a.rexBits 32 32 r x b = .returned a) ∧
    (0x48 + 4 * r.toNat + 2 * x.toNat + b.toNat).testBit 3 = true ∧
    (0x40 + 4 * r.toNat + 2 * x.toNat + b.toNat).testBit 3 = false ∧
    0x48 + 4 * r.toNat + 2 * x.toNat + b.toNat =
      (0x40 + 4 * r.toNat + 2 * x.toNat + b.toNat) ||| 8 ∧
    ((0x48 + 4 * r.toNat + 2 * x.toNat + b.toNat).testBit 2 = r ∧
      (0x40 + 4 * r.toNat + 2 * x.toNat + b.toNat).testBit 2 = r) ∧
    ((0x48 + 4 * r.toNat + 2 * x.toNat + b.toNat).testBit 1 = x ∧
      (0x40 + 4 * r.toNat + 2 * x.toNat + b.toNat).testBit 1 = x) ∧
    ((0x48 + 4 * r.toNat + 2 * x.toNat + b.toNat).testBit 0 = b ∧
      (0x40 + 4 * r.toNat + 2 * x.toNat + b.toNat).testBit 0 = b) := by
  cases r <;> cases x <;> cases b <;>
    simp [Assembler.rexBits, Assembler.rex, rexFlagBits, PFX_REX, REXW, REXR, REXX, REXB] <;>
    decide

theorem rexBits_width_witness :
    Assembler.rexBits ⟨[0, 0], 0, 0, none⟩ 32 32 true false true =
      Assembler.byte ⟨[0, 0], 0, 0, none⟩ (0x40 + 4 * 1 + 2 * 0 + 1) :=
  (rexBits_width ⟨[0, 0], 0, 0, none⟩ true false true).2.1 (by decide)

/-- C18. When `rexBits(lsize, rsize, r, x, b)` does not raise its size-mismatch
panic (`lsize = 0`, or `rsize = 0`, or both equal), it is `rex(W, r, x, b)` with `W`
true exactly when `lsize = 64`, or `rsize = 64`, or `lsize = rsize = 0`; the
bitwise OR `lsize | rsize` is then the one specified size, and a specified size of
8, 16 or 32 gives `rex(false, r, x, b)`. -/
theorem rexBits_effective_width (a : Assembler) (lsize rsize : Nat) (r x b : Bool)
    (h : lsize = 0 ∨ rsize = 0 ∨ lsize = rsize) :
    a.rexBits lsize rsize r x b =
      a.rex (decide (lsize = 64 ∨ rsize = 64 ∨ (lsize = 0 ∧ rsize = 0))) r x b ∧
    lsize ||| rsize = (if lsize = 0 then rsize else lsize) ∧
    ((lsize ||| rsize = 8 ∨ lsize ||| rsize = 16 ∨ lsize ||| rsize = 32) →
      a.rexBits lsize rsize r x b = a.rex false r x b) := by
  have hn : ¬ (lsize ≠ 0 ∧ rsize ≠ 0 ∧ lsize ≠ rsize) := by
    rintro ⟨h1, h2, h3⟩
    rcases h with h | h | h
    · exact h1 h
    · exact h2 h
    · exact h3 h
  have hor : lsize ||| rsize = (if lsize = 0 then rsize else lsize) := by
    rcases h with h | h | h
    · subst h; simp
    · subst h
      by_cases h1 : lsize = 0 <;> simp [h1]
    · subst h; simp
  have hW : ∀ W : Bool, W = decide ((if lsize ||| rsize = 0 then 64 else lsize ||| rsize) = 64) →
      a.rexBits lsize rsize r x b = a.rex W r x b := by
    intro W hW
    unfold Assembler.rexBits
    rw [if_neg hn, hW]
  refine ⟨hW _ ?_, hor, fun h8 => hW _ ?_⟩
  · rw [hor]
    rcases h with h | h | h
    · subst h
      by_cases h1 : rsize = 0 <;> by_cases h2 : rsize = 64 <;> simp [h1, h2]
    · subst h
      by_cases h1 : lsize = 0 <;> by_cases h2 : lsize = 64 <;> simp [h1, h2]
    · subst h
      by_cases h1 : lsize = 0 <;> by_cases h2 : lsize = 64 <;> simp [h1, h2]
  · rcases h8 with h8 | h8 | h8 <;> simp [h8]

theorem rexBits_effective_width_witness :
    Assembler.rexBits ⟨[0, 0], 0, 0, none⟩ 0 32 true false false =
      Assembler.rex ⟨[0, 0], 0, 0, none⟩ false true false false :=
  ((rexBits_effective_width ⟨[0, 0], 0, 0, none⟩ 0 32 true false false (by decide)).2.2
    (by decide))

/-! ## The loop of `bytes` -/

theorem byte_fits (B : List Nat) (n : Nat) (abi : ABI) (e : Option GoError) (b : Nat)
    (h : n < B.length) :
    Assembler.byte ⟨B, n, abi, e⟩ b = .returned ⟨B.set n b, n + 1, abi, e⟩ := by
  unfold Assembler.byte
  rw [if_neg (by simp only []; omega)]
  simp only []
  rw [store_at _ _ _ _ _ _ _ n rfl h]

theorem bytes_loop (bs : List Nat) : ∀ (B : List Nat) (n : Nat) (abi : ABI) (e : Option GoError),
    n ≤ B.length →
    ∃ B1, Assembler.bytes ⟨B, n, abi, e⟩ bs =
        .returned ⟨B1, n + min bs.length (B.length - n), abi,
          if bs.length ≤ B.length - n then e else some ErrBufferTooSmall⟩ ∧
      B1.length = B.length ∧
      (∀ k : Nat, k < min bs.length (B.length - n) → B1[n + k]? = bs[k]?) ∧
      (∀ j : Nat, j < n ∨ n + min bs.length (B.length - n) ≤ j → B1[j]? = B[j]?) := by
  induction bs with
  | nil =>
    intro B n abi e h
    exact ⟨B, by simp [Assembler.bytes], rfl, by simp, fun _ _ => rfl⟩
  | cons b bs ih =>
    intro B n abi e h
    by_cases hfull : n = B.length
    · obtain ⟨B1, e1, l1, _, f1⟩ := ih B n abi (some ErrBufferTooSmall) h
      refine ⟨B1, ?_, l1, ?_, ?_⟩
      · rw [Assembler.bytes, byte_full _ _ (by simp only []; omega)]
        simp only []
        rw [e1]
        simp [hfull]
      · intro k hk
        simp [hfull] at hk
      · intro j hj
        exact f1 j (by simp [hfull] at hj ⊢; omega)
    · have hlt : n < B.length := by omega
      obtain ⟨B1, e1, l1, b1, f1⟩ := ih (B.set n b) (n + 1) abi e (by simp; omega)
      simp only [List.length_set] at e1 l1 b1 f1
      have hmin : (n : Int) + 1 + ((min bs.length (B.length - (n + 1)) : Nat) : Int) =
          (n : Int) + ((min (b :: bs).length (B.length - n) : Nat) : Int) := by
        simp only [List.length_cons]; omega
      have hif : (if bs.length ≤ B.length - (n + 1) then e else some ErrBufferTooSmall) =
          (if (b :: bs).length ≤ B.length - n then e else some ErrBufferTooSmall) := by
        simp only [List.length_cons]
        by_cases hc : bs.length ≤ B.length - (n + 1)
        · rw [if_pos hc, if_pos (by omega)]
        · rw [if_neg hc, if_neg (by omega)]
      refine ⟨B1, ?_, l1, ?_, ?_⟩
      · rw [Assembler.bytes, byte_fits B n abi e b hlt]
        simp only []
        simp only [Nat.cast_add, Nat.cast_one] at e1
        rw [e1, hmin, hif]
      · intro k hk
        cases k with
        | zero =>
          rw [Nat.add_zero, f1 n (Or.inl (by omega))]
          simp [hlt]
        | succ k =>
          have := b1 k (by simp only [List.length_cons] at hk; omega)
          rw [show n + (k + 1) = n + 1 + k by ring, this]
          simp
      · intro j hj
        rw [f1 j (by simp only [List.length_cons] at hj; omega),
          List.getElem?_set_ne (by omega)]

/-- C19. `bytes(bs)` runs `byte` over `bs` from left to right. From a state with
`0 <= Off <= len(Buf)` and `N = len(Buf) - Off`: if `len(bs) <= N` it returns with
`Buf[Off+k] = bs[k]` for all `k < len(bs)`, `Off` larger by `len(bs)` and `err` as
before; if `len(bs) > N` it returns with the first `N` bytes of `bs` at
`Buf[Off .. Off+N)`, `Off = len(Buf)` and `err = ErrBufferTooSmall`. In both cases
`len(Buf)` and the positions outside the written range are as before. -/
theorem bytes_fold (a : Assembler) (bs : List Nat) (hok : CursorOk a) :
    (∀ b : Nat, a.bytes (b :: bs) = 
      match a.byte b with
      | .returned a1 => a1.bytes bs
      | .panicked m a1 => .panicked m a1) ∧
    a.bytes [] = .returned a ∧
    ((bs.length : Int) ≤ (a.Buf.length : Int) - a.Off →
      ∃ a1, a.bytes bs = .returned a1 ∧
        (∀ k : Nat, k < bs.length → a1.Buf[a.Off.toNat + k]? = bs[k]?) ∧
        (∀ j : Nat, ((j : Int) < a.Off ∨ a.Off + bs.length ≤ (j : Int)) →
          a1.Buf[j]? = a.Buf[j]?) ∧
        a1.Buf.length = a.Buf.length ∧
        a1.Off = a.Off + bs.length ∧ a1.err = a.err) ∧
    ((bs.length : Int) > (a.Buf.length : Int) - a.Off →
      ∃ a1, a.bytes bs = .returned a1 ∧
        (∀ k : Nat, (k : Int) < (a.Buf.length : Int) - a.Off →
          a1.Buf[a.Off.toNat + k]? = bs[k]?) ∧
        (∀ j : Nat, (j : Int) < a.Off → a1.Buf[j]? = a.Buf[j]?) ∧
        a1.Buf.length = a.Buf.length ∧
        a1.Off = (a.Buf.length : Int) ∧ a1.err = some ErrBufferTooSmall) := by
  obtain ⟨B, o, abi, e⟩ := a
  obtain ⟨h0, h1⟩ := hok
  obtain ⟨n, rfl⟩ := Int.eq_ofNat_of_zero_le h0
  simp only [Int.toNat_ofNat] at *
  have hn : n ≤ B.length := by omega
  obtain ⟨B1, e1, l1, b1, f1⟩ := bytes_loop bs B n abi e hn
  refine ⟨fun b => by rw [Assembler.bytes], rfl, ?_, ?_⟩
  · intro hfit
    have hle : bs.length ≤ B.length - n := by omega
    rw [if_pos hle, Nat.min_eq_left hle] at e1
    rw [Nat.min_eq_left hle] at b1
    rw [Nat.min_eq_left hle] at f1
    refine ⟨_, e1, b1, ?_, l1, by push_cast; rfl, rfl⟩
    intro j hj
    exact f1 j (by omega)
  · intro hover
    have hgt : ¬ bs.length ≤ B.length - n := by omega
    rw [if_neg hgt, Nat.min_eq_right (by omega)] at e1
    rw [Nat.min_eq_right (by omega)] at b1
    refine ⟨_, e1, ?_, ?_, l1, ?_, rfl⟩
    · intro k hk
      exact b1 k (by omega)
    · intro j hj
      exact f1 j (Or.inl (by omega))
    · simp only []
      omega

theorem bytes_fold_witness :
    ∃ a1, Assembler.bytes ⟨[0, 0, 0], 1, 0, none⟩ [7, 8, 9] = .returned a1 ∧
      (∀ k : Nat, (k : Int) < (([0, 0, 0] : List Nat).length : Int) - 1 →
        a1.Buf[(1 : Int).toNat + k]? = [7, 8, 9][k]?) ∧
      (∀ j : Nat, (j : Int) < 1 → a1.Buf[j]? = [0, 0, 0][j]?) ∧
      a1.Buf.length = ([0, 0, 0] : List Nat).length ∧
      a1.Off = (([0, 0, 0] : List Nat).length : Int) ∧ a1.err = some ErrBufferTooSmall :=
  (bytes_fold ⟨[0, 0, 0], 1, 0, none⟩ [7, 8, 9] (by decide)).2.2.2 (by decide)

/-- C20. The eight group-1 pairs (`add`, `or`, `adc`, `sbb`, `and`, `sub`, `xor`,
`cmp` with sub-opcodes 0..7, and their byte forms): the full-width descriptor has
`imm_rm.op = [0x81]`, `r_rm = [8s+1]`, `rm_r = [8s+3]`; the byte descriptor has the
same sub-opcode and each opcode one less; all sixteen have no `imm_r` and
`immbits = 0`. -/
theorem group1_regular :
    Group1 InstAdd InstAddb 0 ∧ Group1 InstOr InstOrb 1 ∧ Group1 InstAdc InstAdcb 2 ∧
    Group1 InstSbb InstSbbb 3 ∧ Group1 InstAnd InstAndb 4 ∧ Group1 InstSub InstSubb 5 ∧
    Group1 InstXor InstXorb 6 ∧ Group1 InstCmp InstCmpb 7 := by
  unfold Group1
  refine ⟨?_, ?_, ?_, ?_, ?_, ?_, ?_, ?_⟩ <;> decide

end Amd64
